import Mathlib

/-!
Verification of `drf-serializer-dumps` (`src/drf_serializer_dumps/decorators.py`).

The library's single operation `serializer_dumps` walks a serializer class's
declared fields and synthesizes an example payload.  This file gives a shallow
embedding of that routine and proves/refutes the specification claims.

Modelling choices (each is an abstraction of data the claims never inspect):
* Python values flowing through the routine are the inductive `Value`.
  The process-wide samples `_uuid` / `_now` (decorators.py lines 35-36) are
  abstracted to natural numbers inside `Samples`; `uuid4()` / `timezone.now()`
  are modelled by passing the freshly generated samples as an explicit
  argument, and the two module globals as explicit state in/out.
* Textual renderings of sample values (ISO-8601 text, UUID hex text, ...)
  are modelled as injective encodings of the abstract sample; the concrete
  characters are irrelevant to every claim.
* Python exceptions raised inside the routine are modelled with `Except`;
  diagnostic `print` calls are collected in a `List String` log.
* `extend_type_map` keys are the hashable type objects that occur in or
  alongside the default table (`ExtKey`); overriding a serializer *class*
  key is not modelled, and no claim concerns it.
-/

namespace Drf

/-- The ten serializer field classes of `field_type_mapping`
(decorators.py lines 112-123). -/
inductive FieldCls where
  | choice | char | float | bool | int | uuid | datetime | date | time | duration
deriving DecidableEq

/-- The `OpenApiTypes` members appearing in `type_mapping`
(decorators.py lines 127-139). -/
inductive OpenTag where
  | STR | DOUBLE | BOOL | BINARY | INT | UUID | DATETIME | DATE | TIME
  | DURATION | OBJECT | ANY | NONE
deriving DecidableEq

/-- The Python primitive types appearing in `type_mapping`
(decorators.py lines 140-152). -/
inductive PrimT where
  | pStr | pFloat | pBool | pBytes | pInt | pUUID | pDatetime | pDate | pTime
  | pTimedelta | pDict
deriving DecidableEq

/-- Hashable key objects a caller may supply in `extend_type_map`
(`dict[type, Any]`): the keys of the default table plus arbitrary plain
classes. -/
inductive ExtKey where
  | kFieldCls (c : FieldCls)
  | kOpen (o : OpenTag)
  | kPrim (p : PrimT)
  | kDict
  | kAny
  | kNone
  | kUnknown (nm : String)
deriving DecidableEq

mutual
/-- A type object as it occurs as an annotation: a serializer field class, an
`OpenApiTypes` member, a Python primitive type, `typing.Dict` / `typing.Any`,
`NoneType`, a serializer class, a `list`/`tuple`/`set`-style generic alias
(`many_annotations`, decorators.py line 156), a `Union`/`Optional` (only its
first argument matters, line 181), or some other plain class. -/
inductive Ann where
  | fieldCls (c : FieldCls)
  | openApi (o : OpenTag)
  | prim (p : PrimT)
  | tDict
  | tAny
  | noneT
  | ser (s : Ser)
  | listOf (elem : Ann)
  | unionOf (first : Ann)
  | unknownCls (nm : String)

/-- A field instance as produced by `klass().get_fields()`, classified the way
`_walk_fields_recursively` (lines 202-267) dispatches on it:
* `plain c choices sub`: an instance whose classification reaches lines
  213-224/229-232; `sub = true` models an instance of a strict subclass of the
  kind `c` (so `type(instance).__bases__[0]` is `c`, lines 214-224), and
  `sub = false` a direct instance of `c` (base class `serializers.Field`,
  lines 229-232).  `choices` is the instance's own choice list (used by
  `ChoiceField.to_representation`).
* `listF child`: a `ListField` whose child is an instance of `child`
  (lines 210-211).
* `listSer child many`: a `ListSerializer` with child serializer class
  `child` (lines 206-208).
* `nested child`: a nested `Serializer` instance of class `child`
  (lines 225-228).
* `method oa ret`: a `SerializerMethodField` whose accessor method carries the
  `@extend_schema_field` value `oa` (`_spectacular_annotation`, line 171) and
  declared return annotation `ret` (`get_type_hints`, line 176). -/
inductive SField where
  | plain (c : FieldCls) (choices : List String) (sub : Bool)
  | listF (child : FieldCls)
  | listSer (child : Ser) (many : Bool)
  | nested (child : Ser)
  | method (oa : Option Ann) (ret : Option Ann)

/-- A serializer class: its `__name__` and the ordered field items returned by
`klass().get_fields()` (names are unique in any class produced by the
framework). -/
inductive Ser where
  | mk (sname : String) (fields : List (String × SField))
end

/-- A Python value as it flows through the routine: JSON primitives plus the
non-JSON-native sample objects (`UUID`, `datetime`, `date`, `time`,
`timedelta`, `bytes`).  Float payloads are integral (only `1.0` occurs). -/
inductive Value where
  | str (s : String)
  | int (n : Int)
  | float (n : Int)
  | bool (b : Bool)
  | none
  | uuid (u : Nat)
  | dt (t : Nat)
  | date (d : Nat)
  | time (x : Nat)
  | td (n : Nat)
  | bytes (s : String)
  | list (xs : List Value)
  | dict (xs : List (String × Value))

/-- A Python exception escaping the routine. -/
inductive PyErr where
  | attributeError (msg : String)
  | typeError (msg : String)
  | valueError (msg : String)
deriving DecidableEq

/-- The two process-wide cached samples `_uuid` and `_now`
(decorators.py lines 35-36), abstracted to naturals. -/
structure Samples where
  u : Nat
  t : Nat
deriving DecidableEq

/-- The date component `_now.date()` (seconds-to-days abstraction). -/
def dateOf (t : Nat) : Nat := t / 86400

/-- The time component `_now.time()`. -/
def timeOf (t : Nat) : Nat := t % 86400

/-- Python `str()` of the sample UUID (hex formatting abstracted, injectively). -/
def uuidStr (u : Nat) : String := "uuid-" ++ toString u

/-- Python `str()` of the sample datetime. -/
def dtStr (t : Nat) : String := "datetime-" ++ toString t

/-- Python `str()` of the sample date. -/
def dateStr (d : Nat) : String := "date-" ++ toString d

/-- Python `str()` of the sample time. -/
def timeStr (x : Nat) : String := "time-" ++ toString x

/-- Python `str()` of a timedelta. -/
def tdStr (n : Nat) : String := "timedelta-" ++ toString n

/-- Rendering `DateTimeField.to_representation` gives the sample
datetime.  The concrete characters matter to no claim; all that is used is
that distinct datetimes render to distinct text, so the rendering is modelled
by an explicitly injective encoding of the timestamp. -/
def isoDateTime (t : Nat) : String := String.mk (List.replicate (t + 1) 'T')

/-- Rendering `DateField.to_representation` gives the sample date (ISO text). -/
def isoDate (d : Nat) : String := "iso-date-" ++ toString d

/-- Rendering `TimeField.to_representation` gives the sample time (ISO text). -/
def isoTime (x : Nat) : String := "iso-time-" ++ toString x

/-- Rendering `DurationField.to_representation` gives a duration (`duration_string`). -/
def durStr (n : Nat) : String := "duration-" ++ toString n

/-- Python `str()` of a value (used by `CharField.to_representation` and by
`json.dumps(..., default=str)`).  The list/dict clauses model `repr` text that
no claim reaches. -/
def pyStr : Value → String
  | .str s => s
  | .int n => toString n
  | .float n => toString n ++ ".0"
  | .bool b => if b then "True" else "False"
  | .none => "None"
  | .uuid u => uuidStr u
  | .dt t => dtStr t
  | .date d => dateStr d
  | .time x => timeStr x
  | .td n => tdStr n
  | .bytes s => "b'" ++ s ++ "'"
  | .list _ => "[...]"
  | .dict _ => "<dict>"

/-- Python truthiness (`bool(value)`). -/
def truthy : Value → Bool
  | .str s => !s.isEmpty
  | .int n => decide (n ≠ 0)
  | .float n => decide (n ≠ 0)
  | .bool b => b
  | .none => false
  | .uuid _ => true
  | .dt _ => true
  | .date _ => true
  | .time _ => true
  | .td n => decide (n ≠ 0)
  | .bytes s => !s.isEmpty
  | .list xs => !xs.isEmpty
  | .dict xs => !xs.isEmpty

/-- Numeric content of a value under Python's cross-type numeric equality
(`1 == 1.0 == True`). -/
def numVal? : Value → Option Int
  | .int n => some n
  | .float n => some n
  | .bool b => some (if b then 1 else 0)
  | _ => Option.none

/-- Python `==` on the hashable values that occur as dict keys here.
Numbers compare across `int`/`float`/`bool`; everything else compares
structurally within its own type.  (Lists/dicts are unhashable and are
rejected before any key comparison.) -/
def pyEq (a b : Value) : Bool :=
  match numVal? a, numVal? b with
  | some x, some y => x == y
  | _, _ =>
    match a, b with
    | .str s, .str s2 => s == s2
    | .none, .none => true
    | .uuid u, .uuid u2 => u == u2
    | .dt x, .dt y => x == y
    | .date x, .date y => x == y
    | .time x, .time y => x == y
    | .td x, .td y => x == y
    | .bytes s, .bytes s2 => s == s2
    | _, _ => false

/-- Is this value Python `None`? (`is None` tests, lines 184 and 237). -/
def Value.isNone : Value → Bool
  | .none => true
  | _ => false

/-- The dict `field_type_mapping` (decorators.py lines 112-123) as a function of the
current samples. -/
def fieldTypeMap (st : Samples) : FieldCls → Value
  | .choice => .str "string"
  | .char => .str "string"
  | .float => .float 1
  | .bool => .bool false
  | .int => .int 1
  | .uuid => .uuid st.u
  | .datetime => .dt st.t
  | .date => .date (dateOf st.t)
  | .time => .time (timeOf st.t)
  | .duration => .td 5

/-- The dict `type_mapping` without caller overrides (decorators.py lines 125-155).
A missing key yields `.none`, exactly as Python's `dict.get` default; the
`None: None` entry (line 153) is indistinguishable from a miss. -/
def tmDefault (st : Samples) : Ann → Value
  | .fieldCls c => fieldTypeMap st c
  | .openApi .STR => .str "string"
  | .openApi .DOUBLE => .float 1
  | .openApi .BOOL => .bool false
  | .openApi .BINARY => .bytes "string"
  | .openApi .INT => .int 1
  | .openApi .UUID => .uuid st.u
  | .openApi .DATETIME => .dt st.t
  | .openApi .DATE => .date (dateOf st.t)
  | .openApi .TIME => .time (timeOf st.t)
  | .openApi .DURATION => .td 5
  | .openApi .OBJECT => .dict []
  | .openApi .ANY => .dict []
  | .openApi .NONE => .none
  | .prim .pStr => .str "string"
  | .prim .pFloat => .float 1
  | .prim .pBool => .bool false
  | .prim .pBytes => .bytes "string"
  | .prim .pInt => .int 1
  | .prim .pUUID => .uuid st.u
  | .prim .pDatetime => .dt st.t
  | .prim .pDate => .date (dateOf st.t)
  | .prim .pTime => .time (timeOf st.t)
  | .prim .pTimedelta => .td 5
  | .prim .pDict => .dict []
  | .tDict => .dict []
  | .tAny => .dict []
  | .noneT => .none
  | .ser _ => .none
  | .listOf _ => .none
  | .unionOf _ => .none
  | .unknownCls _ => .none

/-- The `ExtKey` that an annotation object is, when it is a hashable key a
caller could also have put into `extend_type_map`. -/
def annKey? : Ann → Option ExtKey
  | .fieldCls c => some (.kFieldCls c)
  | .openApi o => some (.kOpen o)
  | .prim p => some (.kPrim p)
  | .tDict => some .kDict
  | .tAny => some .kAny
  | .noneT => some .kNone
  | .unknownCls nm => some (.kUnknown nm)
  | _ => Option.none

/-- Lookup `type_mapping.get(a)` after the call-scoped merge
`{**defaults, **extend_type_map}` (line 154): a later override wins. -/
def tmRaw (ext : List (ExtKey × Value)) (st : Samples) (a : Ann) : Value :=
  match ext.reverse.find? (fun p => annKey? a == some p.1) with
  | some p => p.2
  | Option.none => tmDefault st a

/-- Lookup `type_mapping.get` applied to an optional object (`.get(None)` hits the
`None: None` entry, i.e. yields Python `None`). -/
def tmOpt (tm : Ann → Value) : Option Ann → Value
  | Option.none => .none
  | some a => tm a

/-- Lookup `reversed_field_type_mapping.get(v)` (line 124, built by
`{value: field for field, value in field_type_mapping.items()}`).
Under Python dict semantics `CharField` overwrote `ChoiceField` at the
`'string'` key, and because `1 == 1.0`, `IntegerField` overwrote `FloatField`
in the slot keyed `1.0`.  An unhashable value raises `TypeError`. -/
def revGet (st : Samples) (v : Value) : Except PyErr (Option FieldCls) :=
  match v with
  | .list _ => .error (.typeError "unhashable type")
  | .dict _ => .error (.typeError "unhashable type")
  | _ =>
    .ok (if pyEq v (.str "string") then some .char
      else if pyEq v (.float 1) then some .int
      else if pyEq v (.bool false) then some .bool
      else if pyEq v (.uuid st.u) then some .uuid
      else if pyEq v (.dt st.t) then some .datetime
      else if pyEq v (.date (dateOf st.t)) then some .date
      else if pyEq v (.time (timeOf st.t)) then some .time
      else if pyEq v (.td 5) then some .duration
      else Option.none)

/-- Model of `to_representation` of a field instance of kind `c` with choice list
`choices`, translated from the DRF field classes the routine instantiates. -/
def toRep (c : FieldCls) (choices : List String) (v : Value) : Except PyErr Value :=
  match c with
  | .char => .ok (.str (pyStr v))
  | .choice =>
    match v with
    | .none => .ok .none
    | .str "" => .ok (.str "")
    | _ =>
      .ok (match choices.find? (fun ch => ch == pyStr v) with
        | some ch => .str ch
        | Option.none => v)
  | .int =>
    match v with
    | .int n => .ok (.int n)
    | .float n => .ok (.int n)
    | .bool b => .ok (.int (if b then 1 else 0))
    | .str s =>
      match s.toNat? with
      | some n => .ok (.int n)
      | Option.none => .error (.valueError "invalid literal for int()")
    | _ => .error (.typeError "int() argument")
  | .float =>
    match v with
    | .int n => .ok (.float n)
    | .float n => .ok (.float n)
    | .bool b => .ok (.float (if b then 1 else 0))
    | _ => .error (.typeError "float() argument")
  | .bool => .ok (.bool (truthy v))
  | .uuid => .ok (.str (pyStr v))
  | .datetime =>
    if truthy v then
      match v with
      | .dt t => .ok (.str (isoDateTime t))
      | _ => .error (.attributeError "object has no attribute isoformat")
    else .ok .none
  | .date =>
    if truthy v then
      match v with
      | .date d => .ok (.str (isoDate d))
      | _ => .error (.attributeError "object has no attribute isoformat")
    else .ok .none
  | .time =>
    if truthy v then
      match v with
      | .time x => .ok (.str (isoTime x))
      | _ => .error (.attributeError "object has no attribute isoformat")
    else .ok .none
  | .duration =>
    match v with
    | .td n => .ok (.str (durStr n))
    | _ => .error (.typeError "duration_string() argument")

/-- The result of `get_type_hints(method).get('return')` followed by the one-level
`Union`/`Optional` unwrap of lines 180-181 (first type argument). -/
def unwrapO : Option Ann → Option Ann
  | some (.unionOf a) => some a
  | x => x

/-- Model of `_get_type_value` (decorators.py lines 158-187): first the
`@extend_schema_field` object, then the unwrapped return annotation; returns
the resolved example value and the (unwrapped) annotation. -/
def getTypeValue (tm : Ann → Value) (oa ret : Option Ann) : Value × Option Ann :=
  let ann := unwrapO ret
  let tv := tmOpt tm oa
  let tv := if tv.isNone then tmOpt tm ann else tv
  (tv, ann)

/-- The `print` text of line 244 (`annotation.__name__`). -/
def unknownAnnMsg (nm fieldName : String) : String :=
  "An unknown annotation was found: \"" ++ nm ++ "\" by the field: \"" ++ fieldName ++ "\"."

/-- The `print` text of lines 258-261 (`type(annotation).__name__`). -/
def unknownTypeMsg (tyName fieldName : String) : String :=
  "An unknown annotation was found: \"" ++ tyName ++ "\" For the field: \"" ++
    fieldName ++ "\" the value has been set \"None\"."

/-- Attribute access `annotation.__name__` (line 244): raises `AttributeError` for `None` and
for objects without `__name__` (`Union` objects, `OpenApiTypes` members). -/
def pyNameE : Option Ann → Except PyErr String
  | Option.none => .error (.attributeError "NoneType object has no attribute __name__")
  | some (.fieldCls .choice) => .ok "ChoiceField"
  | some (.fieldCls .char) => .ok "CharField"
  | some (.fieldCls .float) => .ok "FloatField"
  | some (.fieldCls .bool) => .ok "BooleanField"
  | some (.fieldCls .int) => .ok "IntegerField"
  | some (.fieldCls .uuid) => .ok "UUIDField"
  | some (.fieldCls .datetime) => .ok "DateTimeField"
  | some (.fieldCls .date) => .ok "DateField"
  | some (.fieldCls .time) => .ok "TimeField"
  | some (.fieldCls .duration) => .ok "DurationField"
  | some (.openApi _) => .error (.attributeError "object has no attribute __name__")
  | some (.prim .pStr) => .ok "str"
  | some (.prim .pFloat) => .ok "float"
  | some (.prim .pBool) => .ok "bool"
  | some (.prim .pBytes) => .ok "bytes"
  | some (.prim .pInt) => .ok "int"
  | some (.prim .pUUID) => .ok "UUID"
  | some (.prim .pDatetime) => .ok "datetime"
  | some (.prim .pDate) => .ok "date"
  | some (.prim .pTime) => .ok "time"
  | some (.prim .pTimedelta) => .ok "timedelta"
  | some (.prim .pDict) => .ok "dict"
  | some .tDict => .ok "Dict"
  | some .tAny => .ok "Any"
  | some .noneT => .ok "NoneType"
  | some (.ser (.mk nm _)) => .ok nm
  | some (.listOf _) => .ok "list"
  | some (.unionOf _) => .error (.attributeError "object has no attribute __name__")
  | some (.unknownCls nm) => .ok nm

/-- Attribute access `type(annotation).__name__` (line 259); total.  For the class-shaped cases
exercised by the claims it is exact (`'NoneType'` for a missing annotation,
`'type'` for a plain class); the remaining CPython metaclass names are opaque
message content. -/
def typeNameOf : Option Ann → String
  | Option.none => "NoneType"
  | some (.fieldCls _) => "type"
  | some (.prim _) => "type"
  | some (.unknownCls _) => "type"
  | some .noneT => "type"
  | some (.ser _) => "SerializerMetaclass"
  | some (.listOf _) => "GenericAlias"
  | some (.unionOf _) => "UnionType"
  | some (.openApi _) => "OpenApiTypes"
  | some .tDict => "GenericAlias"
  | some .tAny => "SpecialForm"

/-- Is the annotation object a class, i.e. a legal first argument to
`issubclass` (line 254)?  Non-classes make `issubclass` raise `TypeError`. -/
def isClassAnn : Ann → Bool
  | .fieldCls _ => true
  | .prim _ => true
  | .unknownCls _ => true
  | .noneT => true
  | .ser _ => true
  | .openApi _ => false
  | .tAny => false
  | .tDict => false
  | .listOf _ => false
  | .unionOf _ => false

/-- Lines 237-247 for a `SerializerMethodField` whose `_get_type_value`
resolved a value: re-render it through the field class the reverse mapping
assigns to it, or fall back to the raw value with the diagnostic of
lines 244-247 (whose `annotation.__name__` itself raises `AttributeError`
when the annotation is absent). -/
def methodRender (tm : Ann → Value) (rev : Value → Except PyErr (Option FieldCls))
    (fieldName : String) (oa ret : Option Ann) : Except PyErr (Value × List String) :=
  let pr := getTypeValue tm oa ret
  match rev pr.1 with
  | .error e => .error e
  | .ok (some c) => (toRep c [] pr.1).map (fun v => (v, []))
  | .ok Option.none =>
    match pyNameE pr.2 with
    | .error e => .error e
    | .ok nm => .ok (pr.1, [unknownAnnMsg nm fieldName])

/-- Lines 248-261 for an unresolved `SerializerMethodField` whose annotation
does not name a serializer class (the serializer cases are dispatched by the
caller `fieldValue`): a `list[...]`-style annotation makes
`_walk_fields_recursively(get_args(annotation)[0])` call
`klass().get_fields()` on a non-serializer, raising `AttributeError`
(line 199); a non-class annotation makes `issubclass` raise `TypeError`
(line 254); a plain class or absent annotation degrades to `None` with the
diagnostic of lines 258-261. -/
def methodFallback (fieldName : String) (ret : Option Ann) : Except PyErr (Value × List String) :=
  match unwrapO ret with
  | some (.listOf _) => .error (.attributeError "object has no attribute get_fields")
  | some a =>
    if isClassAnn a then .ok (.none, [unknownTypeMsg (typeNameOf (some a)) fieldName])
    else .error (.typeError "issubclass() arg 1 must be a class")
  | Option.none => .ok (.none, [unknownTypeMsg (typeNameOf Option.none) fieldName])

mutual
/-- Model of `_walk_fields_recursively` (decorators.py lines 189-269) on a serializer
class: walk its `get_fields()` items.  `tm` and `rev` are the call-scoped
`type_mapping` and `reversed_field_type_mapping` lookups. -/
def walkSer (tm : Ann → Value) (rev : Value → Except PyErr (Option FieldCls)) :
    Ser → List String → Except PyErr (List (String × Value) × List String)
  | .mk _ fields, excl => walkFields tm rev fields excl

/-- The `for field_name, field_instance in fields.items()` loop
(lines 202-267), threading the diagnostic log. -/
def walkFields (tm : Ann → Value) (rev : Value → Except PyErr (Option FieldCls)) :
    List (String × SField) → List String → Except PyErr (List (String × Value) × List String)
  | [], _ => .ok ([], [])
  | (name, f) :: rest, excl =>
    if name ∈ excl then walkFields tm rev rest excl
    else
      match fieldValue tm rev name f excl with
      | .error e => .error e
      | .ok (v, lg1) =>
        match walkFields tm rev rest excl with
        | .error e => .error e
        | .ok (d, lg2) => .ok ((name, v) :: d, lg1 ++ lg2)

/-- The classification of one field (the `if`/`elif` chain of lines 206-267;
its final `else` of lines 262-267 is unreachable, because the two previous
conditions are complementary). -/
def fieldValue (tm : Ann → Value) (rev : Value → Except PyErr (Option FieldCls))
    (name : String) : SField → List String → Except PyErr (Value × List String)
  | .listSer child many, excl =>
    -- lines 206-208: recurse into the child serializer class; wrap if `many`
    match walkSer tm rev child excl with
    | .error e => .error e
    | .ok (d, lg) => .ok (if many then (.list [.dict d], lg) else (.dict d, lg))
  | .listF childCls, _ =>
    -- lines 210-211: `[type_mapping.get(type(field_instance.child))]`
    .ok (.list [tm (.fieldCls childCls)], [])
  | .plain c chs sub, _ =>
    -- lines 213-224 (subclass instance: `base_field_cls(**kwargs)`, with an
    -- empty choice set for choice fields) and 229-232 (direct instance:
    -- the instance itself, with its own choices)
    if sub then (toRep c [] (tm (.fieldCls c))).map (fun v => (v, []))
    else (toRep c chs (tm (.fieldCls c))).map (fun v => (v, []))
  | .nested child, excl =>
    -- lines 225-228: recurse into `type(field_instance)`
    match walkSer tm rev child excl with
    | .error e => .error e
    | .ok (d, lg) => .ok (.dict d, lg)
  | .method oa ret, excl =>
    -- lines 234-261
    let pr := getTypeValue tm oa ret
    if pr.1.isNone then
      match ret with
      | some (.unionOf (.ser s)) =>
        match walkSer tm rev s excl with
        | .error e => .error e
        | .ok (d, lg) => .ok (.dict d, lg)
      | some (.unionOf (.listOf (.ser s))) =>
        match walkSer tm rev s excl with
        | .error e => .error e
        | .ok (d, lg) => .ok (.list [.dict d], lg)
      | some (.ser s) =>
        match walkSer tm rev s excl with
        | .error e => .error e
        | .ok (d, lg) => .ok (.dict d, lg)
      | some (.listOf (.ser s)) =>
        match walkSer tm rev s excl with
        | .error e => .error e
        | .ok (d, lg) => .ok (.list [.dict d], lg)
      | r => methodFallback name r
    else methodRender tm rev name oa ret
end

/-- The serializer class an unresolved computed field's annotation names, and
whether the result is wrapped in a one-element sequence (the `list[...]`
forms); used only to state lemmas about `fieldValue`'s method branch. -/
def annTarget : Option Ann → Option (Ser × Bool)
  | some (.ser s) => some (s, false)
  | some (.listOf (.ser s)) => some (s, true)
  | some (.unionOf (.ser s)) => some (s, false)
  | some (.unionOf (.listOf (.ser s))) => some (s, true)
  | _ => Option.none

mutual
/-- The `json.loads(json.dumps(..., default=str))` round trip of
lines 271-275: JSON primitives survive; non-JSON-native values are coerced to
their `str()` text. -/
def jsonRound : Value → Value
  | .str s => .str s
  | .int n => .int n
  | .float n => .float n
  | .bool b => .bool b
  | .none => .none
  | .uuid u => .str (pyStr (.uuid u))
  | .dt t => .str (pyStr (.dt t))
  | .date d => .str (pyStr (.date d))
  | .time x => .str (pyStr (.time x))
  | .td n => .str (pyStr (.td n))
  | .bytes s => .str (pyStr (.bytes s))
  | .list xs => .list (jsonRoundL xs)
  | .dict xs => .dict (jsonRoundD xs)

/-- The map `jsonRound` over a JSON array. -/
def jsonRoundL : List Value → List Value
  | [] => []
  | v :: vs => jsonRound v :: jsonRoundL vs

/-- The map `jsonRound` over a JSON object's items. -/
def jsonRoundD : List (String × Value) → List (String × Value)
  | [] => []
  | (k, v) :: vs => (k, jsonRound v) :: jsonRoundD vs
end

/-- Model of `serializer_dumps` (decorators.py lines 39-275).  The module globals
`_uuid`/`_now` enter as `st` and leave as the second component; `fresh` is the
pair `uuid4(), timezone.now()` that lines 109-110 would assign when
`renew_type_value` is set.  The first component is the returned mapping
together with the collected diagnostic prints, or the escaping exception. -/
def serializer_dumps (klass : Ser) (exclude_fields : List String)
    (renew_type_value : Bool) (extend_type_map : List (ExtKey × Value))
    (st fresh : Samples) :
    Except PyErr (Value × List String) × Samples :=
  let st2 := if renew_type_value then fresh else st
  (match walkSer (tmRaw extend_type_map st2) (revGet st2) klass exclude_fields with
    | .error e => .error e
    | .ok (d, lg) => .ok (jsonRound (.dict d), lg), st2)

/-- The value `serializer_dumps` returns (diagnostics are stdout side
effects, not part of the return value). -/
def dumpsVal (klass : Ser) (exclude_fields : List String) (renew_type_value : Bool)
    (extend_type_map : List (ExtKey × Value)) (st fresh : Samples) :
    Except PyErr Value :=
  match (serializer_dumps klass exclude_fields renew_type_value extend_type_map st fresh).1 with
  | .error e => .error e
  | .ok (v, _) => .ok v

end Drf

namespace Drf

mutual
/-- Is a value built from JSON primitive types only (text, number, boolean,
null, mapping, sequence)? -/
def isJsonPrim : Value → Bool
  | .str _ => true
  | .int _ => true
  | .float _ => true
  | .bool _ => true
  | .none => true
  | .list xs => isJsonPrimL xs
  | .dict xs => isJsonPrimD xs
  | _ => false

/-- The check `isJsonPrim` over a sequence. -/
def isJsonPrimL : List Value → Bool
  | [] => true
  | v :: vs => isJsonPrim v && isJsonPrimL vs

/-- The check `isJsonPrim` over a mapping's items. -/
def isJsonPrimD : List (String × Value) → Bool
  | [] => true
  | (_, v) :: vs => isJsonPrim v && isJsonPrimD vs
end

mutual
/-- Remove every mapping entry named in `excl`, at every nesting level. -/
def scrubV (excl : List String) : Value → Value
  | .list xs => .list (scrubL excl xs)
  | .dict xs => .dict (scrubD excl xs)
  | v => v

/-- The map `scrubV` over a sequence. -/
def scrubL (excl : List String) : List Value → List Value
  | [] => []
  | v :: vs => scrubV excl v :: scrubL excl vs

/-- The map `scrubV` over a mapping's items. -/
def scrubD (excl : List String) : List (String × Value) → List (String × Value)
  | [] => []
  | (k, v) :: rest =>
    if k ∈ excl then scrubD excl rest else (k, scrubV excl v) :: scrubD excl rest
end

mutual
/-- Does no mapping entry named in `excl` occur anywhere in the value? -/
def noExcl (excl : List String) : Value → Bool
  | .list xs => noExclL excl xs
  | .dict xs => noExclD excl xs
  | _ => true

/-- The check `noExcl` over a sequence. -/
def noExclL (excl : List String) : List Value → Bool
  | [] => true
  | v :: vs => noExcl excl v && noExclL excl vs

/-- The check `noExcl` over a mapping's items. -/
def noExclD (excl : List String) : List (String × Value) → Bool
  | [] => true
  | (k, v) :: rest => decide (k ∉ excl) && noExcl excl v && noExclD excl rest
end

/-- First value bound to a name in a mapping's items. -/
def dlookup (n : String) : List (String × Value) → Option Value
  | [] => Option.none
  | (k, v) :: rest => if k = n then some v else dlookup n rest

/-- Look a field name up in a returned mapping. -/
def vlookup (n : String) : Value → Option Value
  | .dict d => dlookup n d
  | _ => Option.none

/-- A hashable, non-container value (everything but a list or dict). -/
def isScalar : Value → Bool
  | .list _ => false
  | .dict _ => false
  | _ => true

/-- The field items of a serializer class. -/
def Ser.fields : Ser → List (String × SField)
  | .mk _ fs => fs

/-- The singleton key list of an optional annotation object. -/
def optKeys : Option Ann → List Ann
  | some a => [a]
  | Option.none => []

mutual
/-- All `type_mapping` keys a field's resolution may consult, including
through nested serializer recursion. -/
def fieldKeys : SField → List Ann
  | .plain c _ _ => [.fieldCls c]
  | .listF c => [.fieldCls c]
  | .listSer child _ => serKeys child
  | .nested child => serKeys child
  | .method oa ret => optKeys oa ++ optKeys (unwrapO ret) ++ targetKeys ret

/-- The keys consulted through an unresolved computed field's recursion into
the serializer class its annotation names, if any. -/
def targetKeys : Option Ann → List Ann
  | some (.ser s) => serKeys s
  | some (.listOf (.ser s)) => serKeys s
  | some (.unionOf (.ser s)) => serKeys s
  | some (.unionOf (.listOf (.ser s))) => serKeys s
  | _ => []

/-- The keys `fieldKeys` over a serializer class. -/
def serKeys : Ser → List Ann
  | .mk _ fields => fieldsKeys fields

/-- The keys `fieldKeys` over field items. -/
def fieldsKeys : List (String × SField) → List Ann
  | [] => []
  | (_, f) :: rest => fieldKeys f ++ fieldsKeys rest
end

/-- Keys whose `type_mapping` entry is derived from the process-wide samples
`_uuid` / `_now`. -/
def sampleKey : Ann → Bool
  | .fieldCls .uuid => true
  | .fieldCls .datetime => true
  | .fieldCls .date => true
  | .fieldCls .time => true
  | .openApi .UUID => true
  | .openApi .DATETIME => true
  | .openApi .DATE => true
  | .openApi .TIME => true
  | .prim .pUUID => true
  | .prim .pDatetime => true
  | .prim .pDate => true
  | .prim .pTime => true
  | _ => false

/-- Values carrying one of the sample objects. -/
def sampleShaped : Value → Bool
  | .uuid _ => true
  | .dt _ => true
  | .date _ => true
  | .time _ => true
  | _ => false

/-- A serializer class none of whose fields resolves through a sample-derived
`type_mapping` entry. -/
def sampleFree (s : Ser) : Bool := (serKeys s).all (fun a => !sampleKey a)

/-- Does a field's resolution possibly consult the `type_mapping` key `k`
(the key a caller overrides via `extend_type_map`)? -/
def usesKey (k : ExtKey) (f : SField) : Bool :=
  (fieldKeys f).any (fun a => annKey? a == some k)

/-- The `PersonCars` serializer of the module docstring (decorators.py
lines 56-58). -/
def personCars : Ser := .mk "PersonCars"
  [("car_name", .plain .char [] false), ("car_price", .plain .int [] false)]

/-- The `PersonSerializer` of the module docstring (decorators.py
lines 60-63). -/
def personSer : Ser := .mk "PersonSerializer"
  [("name", .plain .char [] false), ("age", .plain .int [] false),
   ("cars", .listSer personCars true)]

/-- The `ModelSerializer` of docstring Example 2 (decorators.py lines 70-80):
an integer `id`, a text `name`, and a `ListField` over text backing the
`ArrayField` column. -/
def personModelSer : Ser := .mk "PersonSerializer"
  [("id", .plain .int [] false), ("name", .plain .char [] false),
   ("phones", .listF .char)]

/-- A serializer with a computed field whose return annotation is
`list[int]`: a `list`-style annotation whose element is not a serializer
class. -/
def badListSer : Ser := .mk "BadListSer"
  [("x", .method Option.none (some (.listOf (.prim .pInt))))]

/-- A serializer with a computed field annotated only through
`@extend_schema_field(OpenApiTypes.BINARY)`, with no return annotation. -/
def binarySer : Ser := .mk "BinarySer"
  [("w", .method (some (.openApi .BINARY)) Option.none)]

/-- A serializer whose only field is a `UUIDField`. -/
def uuidSer : Ser := .mk "UuidSer" [("uid", .plain .uuid [] false)]

/-- A sample-free serializer together with a `DateTimeField` serializer, used
for the renewal claim. -/
def nameSer : Ser := .mk "NameSer"
  [("name", .plain .char [] false), ("age", .plain .int [] false)]

/-- A serializer with a `DateTimeField` (`birthday`) and a text field. -/
def birthdaySer : Ser := .mk "BirthdaySer"
  [("birthday", .plain .datetime [] false), ("name", .plain .char [] false)]

/-- A serializer with one computed field with an unknown class annotation and
one text field. -/
def benignSer : Ser := .mk "BenignSer"
  [("x", .method Option.none (some (.unknownCls "Widget"))), ("name", .plain .char [] false)]

/-- A serializer with a computed field returning `bytes` (resolves, but no
field kind's canonical example matches). -/
def bytesSer : Ser := .mk "BytesSer"
  [("b", .method Option.none (some (.prim .pBytes)))]

/-- A serializer with a computed field annotated `-> int`. -/
def heightSer : Ser := .mk "HeightSer"
  [("height", .method Option.none (some (.prim .pInt)))]

/-- Initial process state used by concrete witnesses. -/
def st0 : Samples := ⟨0, 0⟩

end Drf

namespace Drf

theorem fieldValue_method_ser (tm : Ann → Value) (rev : Value → Except PyErr (Option FieldCls))
    (name : String) (oa ret : Option Ann) (excl : List String) (s : Ser) (wrap : Bool)
    (hT : annTarget ret = some (s, wrap)) :
    fieldValue tm rev name (.method oa ret) excl =
      if (getTypeValue tm oa ret).1.isNone = true then
        match walkSer tm rev s excl with
        | .error e => .error e
        | .ok (d, lg) => .ok (if wrap then Value.list [.dict d] else .dict d, lg)
      else methodRender tm rev name oa ret := by
  rcases ret with - | (c|o|p|_|_|_|s2|(bc|bo|bp|_|_|_|bs|bb|bu|bn)|(uc|uo|up|_|_|_|us|(lc|lo|lp|_|_|_|ls|lb|lu|ln)|uu|un)|nm)
  case some.ser =>
    simp only [annTarget, Option.some.injEq, Prod.mk.injEq] at hT
    obtain ⟨rfl, rfl⟩ := hT
    rfl
  case some.listOf.ser =>
    simp only [annTarget, Option.some.injEq, Prod.mk.injEq] at hT
    obtain ⟨rfl, rfl⟩ := hT
    rfl
  case some.unionOf.ser =>
    simp only [annTarget, Option.some.injEq, Prod.mk.injEq] at hT
    obtain ⟨rfl, rfl⟩ := hT
    rfl
  case some.unionOf.listOf.ser =>
    simp only [annTarget, Option.some.injEq, Prod.mk.injEq] at hT
    obtain ⟨rfl, rfl⟩ := hT
    rfl
  all_goals simp [annTarget] at hT

end Drf

namespace Drf

theorem fieldValue_method_fb (tm : Ann → Value) (rev : Value → Except PyErr (Option FieldCls))
    (name : String) (oa ret : Option Ann) (excl : List String)
    (hT : annTarget ret = Option.none) :
    fieldValue tm rev name (.method oa ret) excl =
      if (getTypeValue tm oa ret).1.isNone = true then methodFallback name ret
      else methodRender tm rev name oa ret := by
  rcases ret with - | (c|o|p|_|_|_|s2|(bc|bo|bp|_|_|_|bs|bb|bu|bn)|(uc|uo|up|_|_|_|us|(lc|lo|lp|_|_|_|ls|lb|lu|ln)|uu|un)|nm) <;>
    first
      | rfl
      | simp [annTarget] at hT

theorem annTarget_sizeOf (ret : Option Ann) (s : Ser) (wrap : Bool)
    (hT : annTarget ret = some (s, wrap)) : sizeOf s < sizeOf ret := by
  rcases ret with - | (c|o|p|_|_|_|s2|(bc|bo|bp|_|_|_|bs|bb|bu|bn)|(uc|uo|up|_|_|_|us|(lc|lo|lp|_|_|_|ls|lb|lu|ln)|uu|un)|nm)
  case some.ser =>
    simp only [annTarget, Option.some.injEq, Prod.mk.injEq] at hT
    obtain ⟨rfl, rfl⟩ := hT
    simp
    omega
  case some.listOf.ser =>
    simp only [annTarget, Option.some.injEq, Prod.mk.injEq] at hT
    obtain ⟨rfl, rfl⟩ := hT
    simp
    omega
  case some.unionOf.ser =>
    simp only [annTarget, Option.some.injEq, Prod.mk.injEq] at hT
    obtain ⟨rfl, rfl⟩ := hT
    simp
    omega
  case some.unionOf.listOf.ser =>
    simp only [annTarget, Option.some.injEq, Prod.mk.injEq] at hT
    obtain ⟨rfl, rfl⟩ := hT
    simp
    omega
  all_goals simp [annTarget] at hT

end Drf

namespace Drf

theorem scrub_scalar (excl : List String) (v : Value) (h : isScalar v = true) :
    scrubV excl v = v := by
  cases v <;> simp [isScalar] at h <;> rfl

theorem toRep_scalar (c : FieldCls) (chs : List String) (v w : Value)
    (hv : isScalar v = true) (h : toRep c chs v = .ok w) : isScalar w = true := by
  cases c <;> cases v <;> simp only [toRep, truthy] at h <;>
    (repeat' split at h) <;> simp_all [isScalar] <;> (subst h; rfl)

theorem revGet_scalar (st : Samples) (v : Value) (r : Option FieldCls)
    (h : revGet st v = .ok r) : isScalar v = true := by
  cases v <;> simp_all [revGet, isScalar]

theorem methodFallback_ok (name : String) (ret : Option Ann) (v : Value) (lg : List String)
    (h : methodFallback name ret = .ok (v, lg)) : v = Value.none := by
  simp only [methodFallback] at h
  split at h
  · simp at h
  · split at h
    · simp only [Except.ok.injEq, Prod.mk.injEq] at h
      exact h.1.symm
    · simp at h
  · simp only [Except.ok.injEq, Prod.mk.injEq] at h
    exact h.1.symm

theorem methodRender_ok_scalar (tm : Ann → Value) (rev : Value → Except PyErr (Option FieldCls))
    (name : String) (oa ret : Option Ann) (v : Value) (lg : List String)
    (Hrev : ∀ w r, rev w = .ok r → isScalar w = true)
    (h : methodRender tm rev name oa ret = .ok (v, lg)) : isScalar v = true := by
  simp only [methodRender] at h
  split at h
  · simp at h
  case h_2 c heq =>
    cases ht : toRep c [] (getTypeValue tm oa ret).1 with
    | error e => rw [ht] at h; simp [Except.map] at h
    | ok w =>
      rw [ht] at h
      simp only [Except.map, Except.ok.injEq, Prod.mk.injEq] at h
      obtain ⟨hv, -⟩ := h
      subst hv
      exact toRep_scalar c [] _ _ (Hrev _ _ heq) ht
  case h_3 heq =>
    split at h
    · simp at h
    · simp only [Except.ok.injEq, Prod.mk.injEq] at h
      obtain ⟨hv, -⟩ := h
      subst hv
      exact Hrev _ _ heq

mutual
theorem walkSer_scrub (tm : Ann → Value) (rev : Value → Except PyErr (Option FieldCls))
    (Hc : ∀ c, isScalar (tm (.fieldCls c)) = true)
    (Hrev : ∀ v r, rev v = .ok r → isScalar v = true) :
    ∀ (s : Ser) (excl : List String) (d : List (String × Value)) (lg : List String),
      walkSer tm rev s [] = .ok (d, lg) →
      ∃ lg2, walkSer tm rev s excl = .ok (scrubD excl d, lg2)
  | .mk _ fields, excl, d, lg, h => walkFields_scrub tm rev Hc Hrev fields excl d lg h
termination_by s _ _ _ _ => sizeOf s

theorem walkFields_scrub (tm : Ann → Value) (rev : Value → Except PyErr (Option FieldCls))
    (Hc : ∀ c, isScalar (tm (.fieldCls c)) = true)
    (Hrev : ∀ v r, rev v = .ok r → isScalar v = true) :
    ∀ (fs : List (String × SField)) (excl : List String) (d : List (String × Value))
      (lg : List String),
      walkFields tm rev fs [] = .ok (d, lg) →
      ∃ lg2, walkFields tm rev fs excl = .ok (scrubD excl d, lg2)
  | [], excl, d, lg, h => by
    simp only [walkFields, Except.ok.injEq, Prod.mk.injEq] at h
    obtain ⟨h1, -⟩ := h
    subst h1
    exact ⟨[], by simp [walkFields, scrubD]⟩
  | (name, f) :: rest, excl, d, lg, h => by
    simp only [walkFields] at h
    rw [if_neg (List.not_mem_nil name)] at h
    cases hf : fieldValue tm rev name f [] with
    | error e => rw [hf] at h; exact absurd h (by simp)
    | ok p =>
      obtain ⟨v, lg1⟩ := p
      rw [hf] at h
      cases hr : walkFields tm rev rest [] with
      | error e => rw [hr] at h; exact absurd h (by simp)
      | ok q =>
        obtain ⟨d2, lg2⟩ := q
        rw [hr] at h
        simp only [Except.ok.injEq, Prod.mk.injEq] at h
        obtain ⟨hd, -⟩ := h
        subst hd
        obtain ⟨lgf, hlf⟩ := fieldValue_scrub tm rev Hc Hrev f name excl v lg1 hf
        obtain ⟨lgr, hlr⟩ := walkFields_scrub tm rev Hc Hrev rest excl d2 lg2 hr
        by_cases hm : name ∈ excl
        · refine ⟨lgr, ?_⟩
          simp only [walkFields, if_pos hm]
          rw [hlr]
          simp [scrubD, hm]
        · refine ⟨lgf ++ lgr, ?_⟩
          simp only [walkFields, if_neg hm]
          rw [hlf, hlr]
          simp [scrubD, hm]
termination_by fs _ _ _ _ => sizeOf fs

theorem fieldValue_scrub (tm : Ann → Value) (rev : Value → Except PyErr (Option FieldCls))
    (Hc : ∀ c, isScalar (tm (.fieldCls c)) = true)
    (Hrev : ∀ v r, rev v = .ok r → isScalar v = true) :
    ∀ (f : SField) (name : String) (excl : List String) (v : Value) (lg : List String),
      fieldValue tm rev name f [] = .ok (v, lg) →
      ∃ lg2, fieldValue tm rev name f excl = .ok (scrubV excl v, lg2)
  | .plain c chs sub, name, excl, v, lg, h => by
    refine ⟨lg, ?_⟩
    have he : fieldValue tm rev name (.plain c chs sub) excl
        = fieldValue tm rev name (.plain c chs sub) [] := rfl
    rw [he, h]
    simp only [fieldValue] at h
    split at h
    all_goals {
      cases ht : toRep c _ (tm (.fieldCls c)) with
      | error e => rw [ht] at h; exact absurd h (by simp [Except.map])
      | ok w =>
        rw [ht] at h
        simp only [Except.map, Except.ok.injEq, Prod.mk.injEq] at h
        obtain ⟨hv, -⟩ := h
        subst hv
        rw [scrub_scalar excl w (toRep_scalar c _ _ w (Hc c) ht)] }
  | .listF c, name, excl, v, lg, h => by
    refine ⟨lg, ?_⟩
    have he : fieldValue tm rev name (.listF c) excl
        = fieldValue tm rev name (.listF c) [] := rfl
    rw [he, h]
    simp only [fieldValue, Except.ok.injEq, Prod.mk.injEq] at h
    obtain ⟨hv, -⟩ := h
    subst hv
    simp [scrubV, scrubL, scrub_scalar excl _ (Hc c)]
  | .listSer child many, name, excl, v, lg, h => by
    simp only [fieldValue] at h
    cases hw : walkSer tm rev child [] with
    | error e => rw [hw] at h; exact absurd h (by simp)
    | ok p =>
      obtain ⟨dc, lgc⟩ := p
      rw [hw] at h
      obtain ⟨lg2, hw2⟩ := walkSer_scrub tm rev Hc Hrev child excl dc lgc hw
      refine ⟨lg2, ?_⟩
      simp only [fieldValue]
      rw [hw2]
      cases many <;> simp at h <;> obtain ⟨hv, -⟩ := h <;> subst hv <;>
        simp [scrubV, scrubL]
  | .nested child, name, excl, v, lg, h => by
    simp only [fieldValue] at h
    cases hw : walkSer tm rev child [] with
    | error e => rw [hw] at h; exact absurd h (by simp)
    | ok p =>
      obtain ⟨dc, lgc⟩ := p
      rw [hw] at h
      obtain ⟨lg2, hw2⟩ := walkSer_scrub tm rev Hc Hrev child excl dc lgc hw
      refine ⟨lg2, ?_⟩
      simp only [fieldValue]
      rw [hw2]
      simp only [Except.ok.injEq, Prod.mk.injEq] at h
      obtain ⟨hv, -⟩ := h
      subst hv
      simp [scrubV]
  | .method oa ret, name, excl, v, lg, h => by
    cases hT : annTarget ret with
    | none =>
      refine ⟨lg, ?_⟩
      rw [fieldValue_method_fb tm rev name oa ret [] hT] at h
      rw [fieldValue_method_fb tm rev name oa ret excl hT, h]
      have hs : isScalar v = true := by
        split at h
        · rw [methodFallback_ok name ret v lg h]; rfl
        · exact methodRender_ok_scalar tm rev name oa ret v lg Hrev h
      rw [scrub_scalar excl v hs]
    | some p =>
      obtain ⟨s, wrap⟩ := p
      rw [fieldValue_method_ser tm rev name oa ret [] s wrap hT] at h
      rw [fieldValue_method_ser tm rev name oa ret excl s wrap hT]
      split at h
      case isTrue hn =>
        rw [if_pos hn]
        cases hw : walkSer tm rev s [] with
        | error e => rw [hw] at h; exact absurd h (by simp)
        | ok p2 =>
          obtain ⟨dc, lgc⟩ := p2
          rw [hw] at h
          simp only [Except.ok.injEq, Prod.mk.injEq] at h
          obtain ⟨hv, -⟩ := h
          obtain ⟨lg2, hw2⟩ := walkSer_scrub tm rev Hc Hrev s excl dc lgc hw
          rw [hw2]
          refine ⟨lg2, ?_⟩
          subst hv
          cases wrap <;> simp [scrubV, scrubL]
      case isFalse hn =>
        rw [if_neg hn]
        refine ⟨lg, ?_⟩
        rw [h]
        rw [scrub_scalar excl v (methodRender_ok_scalar tm rev name oa ret v lg Hrev h)]
termination_by f _ _ _ _ _ => sizeOf f
decreasing_by
  all_goals simp_wf
  all_goals try omega
  all_goals exact lt_of_lt_of_le (annTarget_sizeOf ret s wrap hT) (by omega)
end

end Drf

namespace Drf

mutual
theorem jsonRound_scrub (excl : List String) : ∀ (v : Value),
    jsonRound (scrubV excl v) = scrubV excl (jsonRound v)
  | .str _ => rfl
  | .int _ => rfl
  | .float _ => rfl
  | .bool _ => rfl
  | .none => rfl
  | .uuid _ => rfl
  | .dt _ => rfl
  | .date _ => rfl
  | .time _ => rfl
  | .td _ => rfl
  | .bytes _ => rfl
  | .list xs => by
    simp only [scrubV, jsonRound, Value.list.injEq]
    exact jsonRound_scrubL excl xs
  | .dict xs => by
    simp only [scrubV, jsonRound, Value.dict.injEq]
    exact jsonRound_scrubD excl xs

theorem jsonRound_scrubL (excl : List String) : ∀ (xs : List Value),
    jsonRoundL (scrubL excl xs) = scrubL excl (jsonRoundL xs)
  | [] => rfl
  | v :: vs => by
    simp only [scrubL, jsonRoundL, List.cons.injEq]
    exact ⟨jsonRound_scrub excl v, jsonRound_scrubL excl vs⟩

theorem jsonRound_scrubD (excl : List String) : ∀ (xs : List (String × Value)),
    jsonRoundD (scrubD excl xs) = scrubD excl (jsonRoundD xs)
  | [] => rfl
  | (k, v) :: vs => by
    by_cases hk : k ∈ excl
    · simp only [scrubD, jsonRoundD, if_pos hk]
      exact jsonRound_scrubD excl vs
    · simp only [scrubD, jsonRoundD, if_neg hk, List.cons.injEq, Prod.mk.injEq]
      exact ⟨⟨trivial, jsonRound_scrub excl v⟩, jsonRound_scrubD excl vs⟩
end

mutual
theorem noExcl_scrub (excl : List String) : ∀ (v : Value),
    noExcl excl (scrubV excl v) = true
  | .str _ => rfl
  | .int _ => rfl
  | .float _ => rfl
  | .bool _ => rfl
  | .none => rfl
  | .uuid _ => rfl
  | .dt _ => rfl
  | .date _ => rfl
  | .time _ => rfl
  | .td _ => rfl
  | .bytes _ => rfl
  | .list xs => by
    simp only [scrubV, noExcl]
    exact noExcl_scrubL excl xs
  | .dict xs => by
    simp only [scrubV, noExcl]
    exact noExcl_scrubD excl xs

theorem noExcl_scrubL (excl : List String) : ∀ (xs : List Value),
    noExclL excl (scrubL excl xs) = true
  | [] => rfl
  | v :: vs => by
    simp only [scrubL, noExclL, Bool.and_eq_true]
    exact ⟨noExcl_scrub excl v, noExcl_scrubL excl vs⟩

theorem noExcl_scrubD (excl : List String) : ∀ (xs : List (String × Value)),
    noExclD excl (scrubD excl xs) = true
  | [] => rfl
  | (k, v) :: vs => by
    by_cases hk : k ∈ excl
    · simp only [scrubD, if_pos hk]
      exact noExcl_scrubD excl vs
    · simp only [scrubD, if_neg hk, noExclD, Bool.and_eq_true]
      exact ⟨⟨by simpa using hk, noExcl_scrub excl v⟩, noExcl_scrubD excl vs⟩
end

mutual
theorem jsonRound_prim : ∀ (v : Value), isJsonPrim (jsonRound v) = true
  | .str _ => rfl
  | .int _ => rfl
  | .float _ => rfl
  | .bool _ => rfl
  | .none => rfl
  | .uuid _ => rfl
  | .dt _ => rfl
  | .date _ => rfl
  | .time _ => rfl
  | .td _ => rfl
  | .bytes _ => rfl
  | .list xs => by
    simp only [jsonRound, isJsonPrim]
    exact jsonRound_primL xs
  | .dict xs => by
    simp only [jsonRound, isJsonPrim]
    exact jsonRound_primD xs

theorem jsonRound_primL : ∀ (xs : List Value), isJsonPrimL (jsonRoundL xs) = true
  | [] => rfl
  | v :: vs => by
    simp only [jsonRoundL, isJsonPrimL, Bool.and_eq_true]
    exact ⟨jsonRound_prim v, jsonRound_primL vs⟩

theorem jsonRound_primD : ∀ (xs : List (String × Value)), isJsonPrimD (jsonRoundD xs) = true
  | [] => rfl
  | (k, v) :: vs => by
    simp only [jsonRoundD, isJsonPrimD, Bool.and_eq_true]
    exact ⟨jsonRound_prim v, jsonRound_primD vs⟩
end

theorem dlookup_jsonRoundD (n : String) : ∀ (d : List (String × Value)),
    dlookup n (jsonRoundD d) = (dlookup n d).map jsonRound
  | [] => rfl
  | (k, v) :: rest => by
    by_cases hk : k = n
    · simp [dlookup, jsonRoundD, hk]
    · simp only [dlookup, jsonRoundD, if_neg hk]
      exact dlookup_jsonRoundD n rest

end Drf

namespace Drf

theorem getTypeValue_congr (tm1 tm2 : Ann → Value) (oa ret : Option Ann)
    (hoa : tmOpt tm1 oa = tmOpt tm2 oa)
    (hann : tmOpt tm1 (unwrapO ret) = tmOpt tm2 (unwrapO ret)) :
    getTypeValue tm1 oa ret = getTypeValue tm2 oa ret := by
  simp only [getTypeValue, hoa, hann]

theorem getTypeValue_fst_cases (tm : Ann → Value) (oa ret : Option Ann)
    (h : (getTypeValue tm oa ret).1.isNone = false) :
    ∃ a, (oa = some a ∨ unwrapO ret = some a) ∧ (getTypeValue tm oa ret).1 = tm a := by
  simp only [getTypeValue] at h ⊢
  by_cases ho : (tmOpt tm oa).isNone = true
  · rw [if_pos ho] at h ⊢
    cases hu : unwrapO ret with
    | none => rw [hu] at h; simp [tmOpt, Value.isNone] at h
    | some a => exact ⟨a, Or.inr rfl, rfl⟩
  · rw [if_neg ho] at h ⊢
    cases hoa : oa with
    | none => rw [hoa] at ho; simp [tmOpt, Value.isNone] at ho
    | some a => exact ⟨a, Or.inl rfl, rfl⟩

theorem methodRender_agree (tm1 tm2 : Ann → Value)
    (rev1 rev2 : Value → Except PyErr (Option FieldCls)) (name : String) (oa ret : Option Ann)
    (hg : getTypeValue tm1 oa ret = getTypeValue tm2 oa ret)
    (hr : rev1 (getTypeValue tm1 oa ret).1 = rev2 (getTypeValue tm1 oa ret).1) :
    methodRender tm1 rev1 name oa ret = methodRender tm2 rev2 name oa ret := by
  simp only [methodRender, ← hg, hr]

theorem mem_fieldKeys_oa (oa ret : Option Ann) (a : Ann) (h : oa = some a) :
    a ∈ fieldKeys (.method oa ret) := by
  subst h
  simp [fieldKeys, optKeys, List.mem_append]

theorem mem_fieldKeys_ann (oa ret : Option Ann) (a : Ann) (h : unwrapO ret = some a) :
    a ∈ fieldKeys (.method oa ret) := by
  simp [fieldKeys, optKeys, List.mem_append, h]

theorem annTarget_keys (oa ret : Option Ann) (s : Ser) (wrap : Bool)
    (hT : annTarget ret = some (s, wrap)) (a : Ann) (ha : a ∈ serKeys s) :
    a ∈ fieldKeys (.method oa ret) := by
  rcases ret with - | (c|o|p|_|_|_|s2|(bc|bo|bp|_|_|_|bs|bb|bu|bn)|(uc|uo|up|_|_|_|us|(lc|lo|lp|_|_|_|ls|lb|lu|ln)|uu|un)|nm)
  case some.ser =>
    simp only [annTarget, Option.some.injEq, Prod.mk.injEq] at hT
    obtain ⟨rfl, rfl⟩ := hT
    simp [fieldKeys, optKeys, targetKeys, List.mem_append, ha]
  case some.listOf.ser =>
    simp only [annTarget, Option.some.injEq, Prod.mk.injEq] at hT
    obtain ⟨rfl, rfl⟩ := hT
    simp [fieldKeys, optKeys, targetKeys, List.mem_append, ha]
  case some.unionOf.ser =>
    simp only [annTarget, Option.some.injEq, Prod.mk.injEq] at hT
    obtain ⟨rfl, rfl⟩ := hT
    simp [fieldKeys, optKeys, targetKeys, List.mem_append, ha]
  case some.unionOf.listOf.ser =>
    simp only [annTarget, Option.some.injEq, Prod.mk.injEq] at hT
    obtain ⟨rfl, rfl⟩ := hT
    simp [fieldKeys, optKeys, targetKeys, List.mem_append, ha]
  all_goals simp [annTarget] at hT

end Drf

namespace Drf

mutual
theorem walkSer_agree (tm1 tm2 : Ann → Value) (rev1 rev2 : Value → Except PyErr (Option FieldCls)) :
    ∀ (s : Ser) (excl : List String),
      (∀ a ∈ serKeys s, tm1 a = tm2 a) →
      (∀ a ∈ serKeys s, rev1 (tm1 a) = rev2 (tm1 a)) →
      walkSer tm1 rev1 s excl = walkSer tm2 rev2 s excl
  | .mk _ fields, excl, h1, h2 => walkFields_agree tm1 tm2 rev1 rev2 fields excl h1 h2
termination_by s _ _ _ => sizeOf s

theorem walkFields_agree (tm1 tm2 : Ann → Value)
    (rev1 rev2 : Value → Except PyErr (Option FieldCls)) :
    ∀ (fs : List (String × SField)) (excl : List String),
      (∀ a ∈ fieldsKeys fs, tm1 a = tm2 a) →
      (∀ a ∈ fieldsKeys fs, rev1 (tm1 a) = rev2 (tm1 a)) →
      walkFields tm1 rev1 fs excl = walkFields tm2 rev2 fs excl
  | [], _, _, _ => rfl
  | (name, f) :: rest, excl, h1, h2 => by
    have h1f : ∀ a ∈ fieldKeys f, tm1 a = tm2 a := fun a ha =>
      h1 a (by simp only [fieldsKeys, List.mem_append]; exact Or.inl ha)
    have h2f : ∀ a ∈ fieldKeys f, rev1 (tm1 a) = rev2 (tm1 a) := fun a ha =>
      h2 a (by simp only [fieldsKeys, List.mem_append]; exact Or.inl ha)
    have h1r : ∀ a ∈ fieldsKeys rest, tm1 a = tm2 a := fun a ha =>
      h1 a (by simp only [fieldsKeys, List.mem_append]; exact Or.inr ha)
    have h2r : ∀ a ∈ fieldsKeys rest, rev1 (tm1 a) = rev2 (tm1 a) := fun a ha =>
      h2 a (by simp only [fieldsKeys, List.mem_append]; exact Or.inr ha)
    simp only [walkFields]
    by_cases hm : name ∈ excl
    · rw [if_pos hm, if_pos hm]
      exact walkFields_agree tm1 tm2 rev1 rev2 rest excl h1r h2r
    · rw [if_neg hm, if_neg hm,
        fieldValue_agree tm1 tm2 rev1 rev2 f name excl h1f h2f,
        walkFields_agree tm1 tm2 rev1 rev2 rest excl h1r h2r]
termination_by fs _ _ _ => sizeOf fs

theorem fieldValue_agree (tm1 tm2 : Ann → Value)
    (rev1 rev2 : Value → Except PyErr (Option FieldCls)) :
    ∀ (f : SField) (name : String) (excl : List String),
      (∀ a ∈ fieldKeys f, tm1 a = tm2 a) →
      (∀ a ∈ fieldKeys f, rev1 (tm1 a) = rev2 (tm1 a)) →
      fieldValue tm1 rev1 name f excl = fieldValue tm2 rev2 name f excl
  | .plain c chs sub, name, excl, h1, _ => by
    have hc : tm1 (.fieldCls c) = tm2 (.fieldCls c) := h1 _ (by simp [fieldKeys])
    simp only [fieldValue, hc]
  | .listF c, name, excl, h1, _ => by
    have hc : tm1 (.fieldCls c) = tm2 (.fieldCls c) := h1 _ (by simp [fieldKeys])
    simp only [fieldValue, hc]
  | .listSer child many, name, excl, h1, h2 => by
    simp only [fieldValue]
    rw [walkSer_agree tm1 tm2 rev1 rev2 child excl h1 h2]
  | .nested child, name, excl, h1, h2 => by
    simp only [fieldValue]
    rw [walkSer_agree tm1 tm2 rev1 rev2 child excl h1 h2]
  | .method oa ret, name, excl, h1, h2 => by
    have hoa : tmOpt tm1 oa = tmOpt tm2 oa := by
      cases oa with
      | none => rfl
      | some a =>
        simp only [tmOpt]
        exact h1 a (mem_fieldKeys_oa (some a) ret a rfl)
    have hann : tmOpt tm1 (unwrapO ret) = tmOpt tm2 (unwrapO ret) := by
      cases hu : unwrapO ret with
      | none => rfl
      | some a =>
        simp only [tmOpt]
        exact h1 a (mem_fieldKeys_ann oa ret a hu)
    have hg := getTypeValue_congr tm1 tm2 oa ret hoa hann
    have hrv : ∀ (hn : (getTypeValue tm1 oa ret).1.isNone = false),
        rev1 (getTypeValue tm1 oa ret).1 = rev2 (getTypeValue tm1 oa ret).1 := by
      intro hn
      obtain ⟨a, hmem, heq⟩ := getTypeValue_fst_cases tm1 oa ret hn
      rw [heq]
      rcases hmem with hma | hma
      · exact h2 a (mem_fieldKeys_oa oa ret a hma)
      · exact h2 a (mem_fieldKeys_ann oa ret a hma)
    cases hT : annTarget ret with
    | none =>
      rw [fieldValue_method_fb tm1 rev1 name oa ret excl hT,
        fieldValue_method_fb tm2 rev2 name oa ret excl hT, ← hg]
      by_cases hn : (getTypeValue tm1 oa ret).1.isNone = true
      · rw [if_pos hn, if_pos hn]
      · rw [if_neg hn, if_neg hn]
        exact methodRender_agree tm1 tm2 rev1 rev2 name oa ret hg
          (hrv (by simpa using hn))
    | some p =>
      obtain ⟨s, wrap⟩ := p
      rw [fieldValue_method_ser tm1 rev1 name oa ret excl s wrap hT,
        fieldValue_method_ser tm2 rev2 name oa ret excl s wrap hT, ← hg]
      by_cases hn : (getTypeValue tm1 oa ret).1.isNone = true
      · rw [if_pos hn, if_pos hn,
          walkSer_agree tm1 tm2 rev1 rev2 s excl
            (fun a ha => h1 a (annTarget_keys oa ret s wrap hT a ha))
            (fun a ha => h2 a (annTarget_keys oa ret s wrap hT a ha))]
      · rw [if_neg hn, if_neg hn]
        exact methodRender_agree tm1 tm2 rev1 rev2 name oa ret hg
          (hrv (by simpa using hn))
termination_by f _ _ _ _ => sizeOf f
decreasing_by
  all_goals simp_wf
  all_goals try omega
  all_goals exact lt_of_lt_of_le (annTarget_sizeOf ret s wrap hT) (by omega)
end

end Drf

namespace Drf

theorem walkFields_lookup (tm : Ann → Value) (rev : Value → Except PyErr (Option FieldCls)) :
    ∀ (fs : List (String × SField)) (excl : List String) (d : List (String × Value))
      (lg : List String) (n : String) (f : SField),
      walkFields tm rev fs excl = .ok (d, lg) → n ∉ excl → List.lookup n fs = some f →
      ∃ v l1, fieldValue tm rev n f excl = .ok (v, l1) ∧ dlookup n d = some v
  | [], _, _, _, _, _, _, _, hl => by simp [List.lookup] at hl
  | (m, g) :: rest, excl, d, lg, n, f, h, hn, hl => by
    simp only [walkFields] at h
    by_cases hm : m = n
    · subst hm
      simp only [List.lookup, beq_self_eq_true, Option.some.injEq] at hl
      subst hl
      rw [if_neg hn] at h
      cases hf : fieldValue tm rev m g excl with
      | error e => rw [hf] at h; exact absurd h (by simp)
      | ok p =>
        obtain ⟨v, lg1⟩ := p
        rw [hf] at h
        cases hr : walkFields tm rev rest excl with
        | error e => rw [hr] at h; exact absurd h (by simp)
        | ok q =>
          obtain ⟨d2, lg2⟩ := q
          rw [hr] at h
          simp only [Except.ok.injEq, Prod.mk.injEq] at h
          obtain ⟨hd, -⟩ := h
          subst hd
          exact ⟨v, lg1, rfl, by simp [dlookup]⟩
    · have hbeq : (n == m) = false := by
        simp only [beq_eq_false_iff_ne, ne_eq]
        exact fun hh => hm hh.symm
      simp only [List.lookup, hbeq] at hl
      by_cases hm2 : m ∈ excl
      · rw [if_pos hm2] at h
        exact walkFields_lookup tm rev rest excl d lg n f h hn hl
      · rw [if_neg hm2] at h
        cases hf : fieldValue tm rev m g excl with
        | error e => rw [hf] at h; exact absurd h (by simp)
        | ok p =>
          obtain ⟨v, lg1⟩ := p
          rw [hf] at h
          cases hr : walkFields tm rev rest excl with
          | error e => rw [hr] at h; exact absurd h (by simp)
          | ok q =>
            obtain ⟨d2, lg2⟩ := q
            rw [hr] at h
            simp only [Except.ok.injEq, Prod.mk.injEq] at h
            obtain ⟨hd, -⟩ := h
            subst hd
            obtain ⟨v2, l2, hfv, hdl⟩ := walkFields_lookup tm rev rest excl d2 lg2 n f hr hn hl
            exact ⟨v2, l2, hfv, by simpa [dlookup, hm] using hdl⟩

theorem tmDefault_indep (st1 st2 : Samples) (a : Ann) (h : sampleKey a = false) :
    tmDefault st1 a = tmDefault st2 a := by
  cases a
  case fieldCls c => cases c <;> simp_all [sampleKey] <;> rfl
  case openApi o => cases o <;> simp_all [sampleKey] <;> rfl
  case prim p => cases p <;> simp_all [sampleKey] <;> rfl
  all_goals rfl

theorem tmDefault_notSample (st : Samples) (a : Ann) (h : sampleKey a = false) :
    sampleShaped (tmDefault st a) = false := by
  cases a
  case fieldCls c => cases c <;> simp_all [sampleKey] <;> rfl
  case openApi o => cases o <;> simp_all [sampleKey] <;> rfl
  case prim p => cases p <;> simp_all [sampleKey] <;> rfl
  all_goals rfl

theorem revGet_indep (st1 st2 : Samples) (v : Value) (h : sampleShaped v = false) :
    revGet st1 v = revGet st2 v := by
  cases v <;> simp_all [sampleShaped, revGet, pyEq, numVal?]

theorem tmRaw_nil (st : Samples) (a : Ann) : tmRaw [] st a = tmDefault st a := rfl

theorem tmRaw_single (k : ExtKey) (w : Value) (st : Samples) (a : Ann) :
    tmRaw [(k, w)] st a = if annKey? a = some k then w else tmDefault st a := by
  by_cases hk : annKey? a = some k
  · have hb : (annKey? a == some k) = true := beq_iff_eq.mpr hk
    simp [tmRaw, List.find?, hb, hk]
  · have hb : (annKey? a == some k) = false := beq_eq_false_iff_ne.mpr hk
    simp [tmRaw, List.find?, hb, hk]

theorem isoDateTime_inj (t1 t2 : Nat) (h : isoDateTime t1 = isoDateTime t2) : t1 = t2 := by
  have hl := congrArg String.length h
  simpa [isoDateTime, String.length] using hl

theorem vlookup_jsonRound_dict (n : String) (d : List (String × Value)) :
    vlookup n (jsonRound (.dict d)) = (dlookup n d).map jsonRound := by
  simp [jsonRound, vlookup, dlookup_jsonRoundD]

end Drf

namespace Drf

theorem toRep_choice_string (chs : List String) :
    toRep .choice chs (.str "string") = .ok (.str "string") := by
  simp only [toRep]
  cases hf : chs.find? (fun ch => ch == pyStr (.str "string")) with
  | none => simp [hf]
  | some ch =>
    have hc := List.find?_some hf
    have : ch = "string" := by simpa [pyStr] using hc
    simp [hf, this]

/-- C10: with `renew_type_value=false`, `serializer_dumps` is deterministic —
the freshly generated samples are ignored, the returned mapping is the same
across calls, and the process-wide cached samples are not modified, so a
successive identical call returns the same mapping. -/
theorem C10_deterministic (S : Ser) (excl : List String) (ext : List (ExtKey × Value))
    (st fr1 fr2 : Samples) :
    serializer_dumps S excl false ext st fr1 = serializer_dumps S excl false ext st fr2
    ∧ (serializer_dumps S excl false ext st fr1).2 = st
    ∧ serializer_dumps S excl false ext
        ((serializer_dumps S excl false ext st fr1).2) fr2
      = serializer_dumps S excl false ext st fr1 :=
  ⟨rfl, rfl, rfl⟩

/-- C9: a homogeneous `ListField` yields a one-element sequence holding the
type table's example value for its declared child type, and docstring
Example 2's model serializer yields
`{"id": 1, "name": "string", "phones": ["string"]}`. -/
theorem C9_list_field :
    (∀ (c : FieldCls) (rev : Value → Except PyErr (Option FieldCls)) (name : String)
      (excl : List String) (ext : List (ExtKey × Value)) (st : Samples),
      fieldValue (tmRaw ext st) rev name (.listF c) excl
        = .ok (.list [tmRaw ext st (.fieldCls c)], []))
    ∧ ∀ (st fresh : Samples), dumpsVal personModelSer [] false [] st fresh
        = .ok (.dict [("id", .int 1), ("name", .str "string"),
            ("phones", .list [.str "string"])]) :=
  ⟨fun _ _ _ _ _ _ => rfl, fun _ _ => rfl⟩

/-- C3: a many-relation to a nested serializer produces a one-element sequence
holding the recursively produced mapping, a single nested serializer produces
that mapping directly, and the docstring person example yields
`{"name": "string", "age": 1, "cars": [{"car_name": "string", "car_price": 1}]}`. -/
theorem C3_nested_relation (tm : Ann → Value) (rev : Value → Except PyErr (Option FieldCls))
    (name : String) (child : Ser) (excl : List String) (d : List (String × Value))
    (lg : List String) (h : walkSer tm rev child excl = .ok (d, lg)) :
    fieldValue tm rev name (.listSer child true) excl = .ok (.list [.dict d], lg)
    ∧ fieldValue tm rev name (.nested child) excl = .ok (.dict d, lg)
    ∧ ∀ (st fresh : Samples), dumpsVal personSer [] false [] st fresh
        = .ok (.dict [("name", .str "string"), ("age", .int 1),
            ("cars", .list [.dict [("car_name", .str "string"), ("car_price", .int 1)]])]) := by
  refine ⟨?_, ?_, fun _ _ => rfl⟩
  · simp only [fieldValue]
    rw [h]
    rfl
  · simp only [fieldValue]
    rw [h]

/-- C3 witness: the docstring example's `cars` relation, evaluated at the
initial samples. -/
theorem C3_witness :
    fieldValue (tmRaw [] st0) (revGet st0) "cars" (.listSer personCars true) []
      = .ok (.list [.dict [("car_name", .str "string"), ("car_price", .int 1)]], [])
    ∧ fieldValue (tmRaw [] st0) (revGet st0) "cars" (.nested personCars) []
      = .ok (.dict [("car_name", .str "string"), ("car_price", .int 1)], [])
    ∧ dumpsVal personSer [] false [] st0 st0
      = .ok (.dict [("name", .str "string"), ("age", .int 1),
          ("cars", .list [.dict [("car_name", .str "string"), ("car_price", .int 1)]])]) := by
  have h := C3_nested_relation (tmRaw [] st0) (revGet st0) "cars" personCars []
    [("car_name", .str "string"), ("car_price", .int 1)] [] rfl
  exact ⟨h.1, h.2.1, h.2.2 st0 st0⟩

/-- C8: whenever `serializer_dumps` returns a value, the value is built from
JSON primitive types only, because the mapping passes through the
`json.dumps`/`json.loads` round trip that coerces non-JSON-native values to
text. -/
theorem C8_json_primitive (S : Ser) (excl : List String) (renew : Bool)
    (ext : List (ExtKey × Value)) (st fresh : Samples) (v : Value)
    (h : dumpsVal S excl renew ext st fresh = .ok v) : isJsonPrim v = true := by
  simp only [dumpsVal, serializer_dumps] at h
  cases hw : walkSer (tmRaw ext (if renew then fresh else st)) (revGet (if renew then fresh else st)) S excl with
  | error e => rw [hw] at h; exact absurd h (by simp)
  | ok p =>
    obtain ⟨d, lg⟩ := p
    rw [hw] at h
    simp only [Except.ok.injEq] at h
    subst h
    exact jsonRound_prim (.dict d)

/-- C8 witness: the person example's returned mapping is JSON-primitive. -/
theorem C8_witness :
    isJsonPrim (.dict [("name", .str "string"), ("age", .int 1),
      ("cars", .list [.dict [("car_name", .str "string"), ("car_price", .int 1)]])]) = true :=
  C8_json_primitive personSer [] false [] st0 st0 _ rfl

end Drf

namespace Drf

/-- C1 counterexample: a computed field annotated `-> list[int]` — a shape the
resolver cannot match — does not degrade to null: `serializer_dumps` raises
(the code walks `int` as if it were a serializer class, and
`int().get_fields()` raises `AttributeError`), so the call returns no mapping. -/
theorem C1_counterexample :
    dumpsVal badListSer [] false [] st0 st0
      = .error (.attributeError "object has no attribute get_fields") := rfl

/-- C1 (amended): for a computed field with no documentation-type object whose
return annotation is absent or an unrecognized plain class, the field resolves
to null with a non-fatal diagnostic naming the field (the unresolved type is
reported via `type(annotation).__name__`), and the call still returns a
mapping; unmatched list-style annotations over non-serializer elements raise
instead (see the C1 counterexample). -/
theorem C1_amended (st fresh : Samples) (rev : Value → Except PyErr (Option FieldCls))
    (name c : String) (ret : Option Ann) (excl : List String)
    (hben : ret = Option.none ∨ ret = some (.unknownCls c)) :
    fieldValue (tmRaw [] st) rev name (.method Option.none ret) excl
      = .ok (.none, [unknownTypeMsg (typeNameOf ret) name])
    ∧ dumpsVal benignSer [] false [] st fresh
      = .ok (.dict [("x", .none), ("name", .str "string")]) := by
  rcases hben with rfl | rfl
  · exact ⟨rfl, rfl⟩
  · exact ⟨rfl, rfl⟩

/-- C1 witness: the benign serializer's unknown-class-annotated computed field
degrades to null with the diagnostic, and the call returns a mapping. -/
theorem C1_witness :
    fieldValue (tmRaw [] st0) (revGet st0) "x"
      (.method Option.none (some (.unknownCls "Widget"))) []
      = .ok (.none, [unknownTypeMsg (typeNameOf (some (.unknownCls "Widget"))) "x"])
    ∧ dumpsVal benignSer [] false [] st0 st0
      = .ok (.dict [("x", .none), ("name", .str "string")]) :=
  C1_amended st0 st0 (revGet st0) "x" "Widget" (some (.unknownCls "Widget")) [] (Or.inr rfl)

/-- C7 counterexample: a computed field annotated only through
`@extend_schema_field(OpenApiTypes.BINARY)` resolves to the sample `bytes`
value, which matches no field kind's canonical example; instead of falling
back to the raw value with a diagnostic, the diagnostic's
`annotation.__name__` raises `AttributeError` because the return annotation
is absent. -/
theorem C7_counterexample :
    dumpsVal binarySer [] false [] st0 st0
      = .error (.attributeError "NoneType object has no attribute __name__") := rfl

/-- C7 (amended): a computed field resolves first through the
documentation-type object, then through the return annotation with one level
of union wrapping removed; a resolved value equal to the canonical example of
a field kind is re-rendered through that kind's `to_representation`, and a
resolved value matching no kind falls back to the raw value with a diagnostic
provided the return annotation is an object with a `__name__` (otherwise the
diagnostic itself raises, see the C7 counterexample). -/
theorem C7_amended (tm : Ann → Value) (rev : Value → Except PyErr (Option FieldCls))
    (name : String) (excl : List String) (oa ret : Option Ann) (a : Ann) (c : FieldCls)
    (nm : String) :
    ((tmOpt tm oa).isNone = false → (getTypeValue tm oa ret).1 = tmOpt tm oa)
    ∧ ((tmOpt tm oa).isNone = true → (getTypeValue tm oa ret).1 = tmOpt tm (unwrapO ret))
    ∧ unwrapO (some (.unionOf a)) = some a
    ∧ ((getTypeValue tm oa ret).1.isNone = false → rev (getTypeValue tm oa ret).1 = .ok (some c) →
        fieldValue tm rev name (.method oa ret) excl
          = (toRep c [] (getTypeValue tm oa ret).1).map (fun v => (v, [])))
    ∧ ((getTypeValue tm oa ret).1.isNone = false → rev (getTypeValue tm oa ret).1 = .ok Option.none →
        pyNameE (getTypeValue tm oa ret).2 = .ok nm →
        fieldValue tm rev name (.method oa ret) excl
          = .ok ((getTypeValue tm oa ret).1, [unknownAnnMsg nm name])) := by
  refine ⟨?_, ?_, rfl, ?_, ?_⟩
  · intro hoa
    simp [getTypeValue, hoa]
  · intro hoa
    simp [getTypeValue, hoa]
  · intro hn hrev
    have hfv : fieldValue tm rev name (.method oa ret) excl = methodRender tm rev name oa ret := by
      cases hT : annTarget ret with
      | none => rw [fieldValue_method_fb tm rev name oa ret excl hT, if_neg (by simp [hn])]
      | some p =>
        obtain ⟨s, wrap⟩ := p
        rw [fieldValue_method_ser tm rev name oa ret excl s wrap hT, if_neg (by simp [hn])]
    rw [hfv]
    simp only [methodRender, hrev]
  · intro hn hrev hnm
    have hfv : fieldValue tm rev name (.method oa ret) excl = methodRender tm rev name oa ret := by
      cases hT : annTarget ret with
      | none => rw [fieldValue_method_fb tm rev name oa ret excl hT, if_neg (by simp [hn])]
      | some p =>
        obtain ⟨s, wrap⟩ := p
        rw [fieldValue_method_ser tm rev name oa ret excl s wrap hT, if_neg (by simp [hn])]
    rw [hfv]
    simp only [methodRender, hrev, hnm]

/-- C7 witness: `-> int` re-renders through `IntegerField` (1 stays 1) and
`-> bytes` falls back to the raw sample bytes with the diagnostic. -/
theorem C7_witness :
    fieldValue (tmRaw [] st0) (revGet st0) "height"
      (.method Option.none (some (.prim .pInt))) [] = .ok (.int 1, [])
    ∧ fieldValue (tmRaw [] st0) (revGet st0) "b"
      (.method Option.none (some (.prim .pBytes))) []
      = .ok (.bytes "string", [unknownAnnMsg "bytes" "b"]) := by
  have h1 := (C7_amended (tmRaw [] st0) (revGet st0) "height" [] Option.none
    (some (.prim .pInt)) (.prim .pInt) .int "int").2.2.2.1 rfl rfl
  have h2 := (C7_amended (tmRaw [] st0) (revGet st0) "b" [] Option.none
    (some (.prim .pBytes)) (.prim .pBytes) .int "bytes").2.2.2.2 rfl rfl rfl
  exact ⟨h1.trans rfl, h2.trans rfl⟩

end Drf

namespace Drf

theorem dumpsVal_eq (S : Ser) (excl : List String) (renew : Bool)
    (ext : List (ExtKey × Value)) (st fresh : Samples) :
    dumpsVal S excl renew ext st fresh
      = match walkSer (tmRaw ext (if renew then fresh else st))
          (revGet (if renew then fresh else st)) S excl with
        | .error e => .error e
        | .ok (d, _) => .ok (jsonRound (.dict d)) := by
  simp only [dumpsVal, serializer_dumps]
  cases walkSer (tmRaw ext (if renew then fresh else st))
      (revGet (if renew then fresh else st)) S excl with
  | error e => rfl
  | ok p => rfl

theorem dumpsVal_eq_false (S : Ser) (excl : List String)
    (ext : List (ExtKey × Value)) (st fresh : Samples) :
    dumpsVal S excl false ext st fresh
      = match walkSer (tmRaw ext st) (revGet st) S excl with
        | .error e => .error e
        | .ok (d, _) => .ok (jsonRound (.dict d)) := by
  cases hw : walkSer (tmRaw ext st) (revGet st) S excl <;>
    simp [dumpsVal, serializer_dumps, hw]

theorem dumpsVal_eq_true (S : Ser) (excl : List String)
    (ext : List (ExtKey × Value)) (st fresh : Samples) :
    dumpsVal S excl true ext st fresh
      = match walkSer (tmRaw ext fresh) (revGet fresh) S excl with
        | .error e => .error e
        | .ok (d, _) => .ok (jsonRound (.dict d)) := by
  cases hw : walkSer (tmRaw ext fresh) (revGet fresh) S excl <;>
    simp [dumpsVal, serializer_dumps, hw]

/-- C2: a plain-typed field of a kind in the default table renders that
kind's canonical sample through the field kind's own `to_representation`;
in particular a text field yields `"string"`, a whole-number field yields
`1`, and a field with enumerable choices yields `"string"` (a choice-field
subclass is rendered by an instance constructed with an empty choice set;
a direct instance renders identically for every choice set). -/
theorem C2_plain_field (S : Ser) (n : String) (c : FieldCls) (chs : List String) (sub : Bool)
    (st fresh : Samples) (v : Value)
    (hf : List.lookup n S.fields = some (.plain c chs sub))
    (h : dumpsVal S [] false [] st fresh = .ok v) :
    (∃ w, toRep c (if sub then [] else chs) (fieldTypeMap st c) = .ok w
       ∧ vlookup n v = some (jsonRound w))
    ∧ (c = .char → vlookup n v = some (.str "string"))
    ∧ (c = .int → vlookup n v = some (.int 1))
    ∧ (c = .choice → vlookup n v = some (.str "string")) := by
  rw [dumpsVal_eq_false] at h
  cases hw : walkSer (tmRaw [] st) (revGet st) S [] with
  | error e => rw [hw] at h; exact absurd h (by simp)
  | ok p =>
    obtain ⟨d, lg⟩ := p
    rw [hw] at h
    simp only [Except.ok.injEq] at h
    subst h
    obtain ⟨nm, fields⟩ := S
    obtain ⟨w1, l1, hfv, hdl⟩ := walkFields_lookup (tmRaw [] st) (revGet st) fields [] d lg n
      (.plain c chs sub) hw (by simp) hf
    have hvl : vlookup n (jsonRound (.dict d)) = some (jsonRound w1) := by
      rw [vlookup_jsonRound_dict, hdl]
      rfl
    have hrep : toRep c (if sub then [] else chs) (fieldTypeMap st c) = .ok w1 := by
      simp only [fieldValue] at hfv
      cases sub
      · simp only [Bool.false_eq_true, if_false, ite_false] at hfv ⊢
        cases ht : toRep c chs (tmRaw [] st (.fieldCls c)) with
        | error e => rw [ht] at hfv; exact absurd hfv (by simp [Except.map])
        | ok w =>
          rw [ht] at hfv
          simp only [Except.map, Except.ok.injEq, Prod.mk.injEq] at hfv
          rw [← hfv.1]
          exact ht
      · simp only [ite_true] at hfv ⊢
        cases ht : toRep c [] (tmRaw [] st (.fieldCls c)) with
        | error e => rw [ht] at hfv; exact absurd hfv (by simp [Except.map])
        | ok w =>
          rw [ht] at hfv
          simp only [Except.map, Except.ok.injEq, Prod.mk.injEq] at hfv
          rw [← hfv.1]
          exact ht
    refine ⟨⟨w1, hrep, hvl⟩, ?_, ?_, ?_⟩
    · rintro rfl
      have : w1 = .str "string" := by
        have h2 : toRep .char (if sub then [] else chs) (fieldTypeMap st .char)
            = .ok (.str "string") := by cases sub <;> rfl
        rw [h2] at hrep
        exact (Except.ok.inj hrep).symm
      rw [hvl, this]
      rfl
    · rintro rfl
      have : w1 = .int 1 := by
        have h2 : toRep .int (if sub then [] else chs) (fieldTypeMap st .int)
            = .ok (.int 1) := by cases sub <;> rfl
        rw [h2] at hrep
        exact (Except.ok.inj hrep).symm
      rw [hvl, this]
      rfl
    · rintro rfl
      have : w1 = .str "string" := by
        have h2 : toRep .choice (if sub then [] else chs) (fieldTypeMap st .choice)
            = .ok (.str "string") := toRep_choice_string _
        rw [h2] at hrep
        exact (Except.ok.inj hrep).symm
      rw [hvl, this]
      rfl

/-- C2 witness: the person example's text and whole-number fields, plus a
direct choice field with a nonempty choice set, at the initial samples. -/
theorem C2_witness :
    vlookup "name" (.dict [("name", .str "string"), ("age", .int 1),
      ("cars", .list [.dict [("car_name", .str "string"), ("car_price", .int 1)]])])
      = some (.str "string")
    ∧ vlookup "age" (.dict [("name", .str "string"), ("age", .int 1),
      ("cars", .list [.dict [("car_name", .str "string"), ("car_price", .int 1)]])])
      = some (.int 1)
    ∧ vlookup "cfield" (.dict [("cfield", .str "string")]) = some (.str "string") := by
  refine ⟨?_, ?_, ?_⟩
  · exact (C2_plain_field personSer "name" .char [] false st0 st0 _ rfl rfl).2.1 rfl
  · exact (C2_plain_field personSer "age" .int [] false st0 st0 _ rfl rfl).2.2.1 rfl
  · exact (C2_plain_field (.mk "PersonHouse" [("cfield", .plain .choice ["a", "b"] false)])
      "cfield" .choice ["a", "b"] false st0 st0 _ rfl rfl).2.2.2 rfl

end Drf

namespace Drf

/-- C4 counterexample: excluding the nested name `car_name` changes the value
of the retained top-level field `cars` (its nested mapping loses the entry),
so "every field whose name is not in exclude_fields has the same value as in
the call without exclusions" fails as stated. -/
theorem C4_counterexample :
    dumpsVal personSer ["car_name"] false [] st0 st0
      = .ok (.dict [("name", .str "string"), ("age", .int 1),
          ("cars", .list [.dict [("car_price", .int 1)]])])
    ∧ dumpsVal personSer [] false [] st0 st0
      = .ok (.dict [("name", .str "string"), ("age", .int 1),
          ("cars", .list [.dict [("car_name", .str "string"), ("car_price", .int 1)]])])
    ∧ vlookup "cars" (.dict [("name", .str "string"), ("age", .int 1),
          ("cars", .list [.dict [("car_price", .int 1)]])])
      ≠ vlookup "cars" (.dict [("name", .str "string"), ("age", .int 1),
          ("cars", .list [.dict [("car_name", .str "string"), ("car_price", .int 1)]])]) := by
  refine ⟨rfl, rfl, ?_⟩
  intro hcon
  simp [vlookup, dlookup] at hcon

/-- C4 (amended): the output with exclusions equals the output without
exclusions with every excluded name removed at every nesting level — so an
excluded name is omitted wherever it occurs, and the only change to any
retained field's value is the removal of excluded entries inside it. -/
theorem C4_exclude_fields (S : Ser) (excl : List String) (renew : Bool)
    (st fresh : Samples) (v : Value)
    (h : dumpsVal S [] renew [] st fresh = .ok v) :
    dumpsVal S excl renew [] st fresh = .ok (scrubV excl v)
    ∧ noExcl excl (scrubV excl v) = true := by
  cases renew
  · rw [dumpsVal_eq_false] at h
    cases hw : walkSer (tmRaw [] st) (revGet st) S [] with
    | error e => rw [hw] at h; exact absurd h (by simp)
    | ok p =>
      obtain ⟨d, lg⟩ := p
      rw [hw] at h
      simp only [Except.ok.injEq] at h
      subst h
      obtain ⟨lg2, hw2⟩ := walkSer_scrub (tmRaw [] st) (revGet st)
        (fun c => by cases c <;> rfl) (revGet_scalar st) S excl d lg hw
      refine ⟨?_, noExcl_scrub excl _⟩
      rw [dumpsVal_eq_false, hw2]
      have : jsonRound (.dict (scrubD excl d)) = scrubV excl (jsonRound (.dict d)) := by
        have h2 := jsonRound_scrub excl (.dict d)
        simpa [scrubV, jsonRound] using h2
      exact congrArg Except.ok this
  · rw [dumpsVal_eq_true] at h
    cases hw : walkSer (tmRaw [] fresh) (revGet fresh) S [] with
    | error e => rw [hw] at h; exact absurd h (by simp)
    | ok p =>
      obtain ⟨d, lg⟩ := p
      rw [hw] at h
      simp only [Except.ok.injEq] at h
      subst h
      obtain ⟨lg2, hw2⟩ := walkSer_scrub (tmRaw [] fresh) (revGet fresh)
        (fun c => by cases c <;> rfl) (revGet_scalar fresh) S excl d lg hw
      refine ⟨?_, noExcl_scrub excl _⟩
      rw [dumpsVal_eq_true, hw2]
      have : jsonRound (.dict (scrubD excl d)) = scrubV excl (jsonRound (.dict d)) := by
        have h2 := jsonRound_scrub excl (.dict d)
        simpa [scrubV, jsonRound] using h2
      exact congrArg Except.ok this

/-- C4 witness: excluding `age` and `car_name` from the person example scrubs
exactly those entries at their levels. -/
theorem C4_witness :
    dumpsVal personSer ["age", "car_name"] false [] st0 st0
      = .ok (scrubV ["age", "car_name"]
          (.dict [("name", .str "string"), ("age", .int 1),
            ("cars", .list [.dict [("car_name", .str "string"), ("car_price", .int 1)]])]))
    ∧ noExcl ["age", "car_name"]
        (scrubV ["age", "car_name"]
          (.dict [("name", .str "string"), ("age", .int 1),
            ("cars", .list [.dict [("car_name", .str "string"), ("car_price", .int 1)]])])) = true :=
  C4_exclude_fields personSer ["age", "car_name"] false st0 st0 _ rfl

end Drf

namespace Drf

/-- C6: an `extend_type_map` override of one type changes no field whose
resolution does not consult that type's key, and the merge is call-scoped:
the call leaves the process state unchanged, and a subsequent call without
`extend_type_map` behaves exactly as a plain call on the same state. -/
theorem C6_extend_frame (S : Ser) (k : ExtKey) (w : Value) (st fresh : Samples)
    (n : String) (f : SField) (d1 d2 : Value)
    (hf : List.lookup n S.fields = some f)
    (hfree : usesKey k f = false)
    (h1 : dumpsVal S [] false [(k, w)] st fresh = .ok d1)
    (h2 : dumpsVal S [] false [] st fresh = .ok d2) :
    vlookup n d1 = vlookup n d2
    ∧ (serializer_dumps S [] false [(k, w)] st fresh).2 = st
    ∧ serializer_dumps S [] false []
        ((serializer_dumps S [] false [(k, w)] st fresh).2) fresh
      = serializer_dumps S [] false [] st fresh := by
  refine ⟨?_, rfl, rfl⟩
  rw [dumpsVal_eq_false] at h1 h2
  cases hw1 : walkSer (tmRaw [(k, w)] st) (revGet st) S [] with
  | error e => rw [hw1] at h1; exact absurd h1 (by simp)
  | ok p1 =>
    obtain ⟨da, lga⟩ := p1
    rw [hw1] at h1
    cases hw2 : walkSer (tmRaw [] st) (revGet st) S [] with
    | error e => rw [hw2] at h2; exact absurd h2 (by simp)
    | ok p2 =>
      obtain ⟨db, lgb⟩ := p2
      rw [hw2] at h2
      simp only [Except.ok.injEq] at h1 h2
      subst h1
      subst h2
      obtain ⟨nm, fields⟩ := S
      obtain ⟨va, la, hfa, hda⟩ := walkFields_lookup (tmRaw [(k, w)] st) (revGet st)
        fields [] da lga n f hw1 (by simp) hf
      obtain ⟨vb, lb, hfb, hdb⟩ := walkFields_lookup (tmRaw [] st) (revGet st)
        fields [] db lgb n f hw2 (by simp) hf
      have hkeys : ∀ a ∈ fieldKeys f, tmRaw [(k, w)] st a = tmRaw [] st a := by
        intro a ha
        have hne : ¬ annKey? a = some k := by
          intro hcon
          have hany : (fieldKeys f).any (fun a => annKey? a == some k) = true :=
            List.any_eq_true.mpr ⟨a, ha, beq_iff_eq.mpr hcon⟩
          rw [usesKey, hany] at hfree
          exact absurd hfree (by simp)
        rw [tmRaw_single, if_neg hne, tmRaw_nil]
      have hagree := fieldValue_agree (tmRaw [(k, w)] st) (tmRaw [] st) (revGet st) (revGet st)
        f n [] hkeys (fun a _ => rfl)
      rw [hagree, hfb] at hfa
      have hvv : va = vb := by
        simp only [Except.ok.injEq, Prod.mk.injEq] at hfa
        exact hfa.1.symm
      rw [vlookup_jsonRound_dict, vlookup_jsonRound_dict, hda, hdb, hvv]

/-- C6 witness: overriding the text field class changes the person example's
text fields but not `age`, the process state is untouched, and a subsequent
plain call is the plain call. -/
theorem C6_witness :
    vlookup "age" (.dict [("name", .str "hello"), ("age", .int 1),
        ("cars", .list [.dict [("car_name", .str "hello"), ("car_price", .int 1)]])])
      = vlookup "age" (.dict [("name", .str "string"), ("age", .int 1),
        ("cars", .list [.dict [("car_name", .str "string"), ("car_price", .int 1)]])])
    ∧ (serializer_dumps personSer [] false [(.kFieldCls .char, .str "hello")] st0 st0).2 = st0
    ∧ serializer_dumps personSer [] false []
        ((serializer_dumps personSer [] false [(.kFieldCls .char, .str "hello")] st0 st0).2) st0
      = serializer_dumps personSer [] false [] st0 st0 :=
  C6_extend_frame personSer (.kFieldCls .char) (.str "hello") st0 st0 "age"
    (.plain .int [] false) _ _ rfl rfl rfl rfl

end Drf

namespace Drf

/-- C5 counterexample: with `renew_type_value=true`, the shared sample
identifier is regenerated along with the timestamp, so two renewed calls on a
serializer with only a `UUIDField` — no timestamp-derived field — still
produce different mappings, contradicting "equal in every field except the
timestamp-derived field". -/
theorem C5_counterexample :
    dumpsVal uuidSer [] true [] st0 ⟨1, 10⟩ = .ok (.dict [("uid", .str (uuidStr 1))])
    ∧ dumpsVal uuidSer [] true [] st0 ⟨2, 20⟩ = .ok (.dict [("uid", .str (uuidStr 2))])
    ∧ dumpsVal uuidSer [] true [] st0 ⟨1, 10⟩ ≠ dumpsVal uuidSer [] true [] st0 ⟨2, 20⟩ := by
  refine ⟨rfl, rfl, ?_⟩
  intro hcon
  have h2 : (Except.ok (Value.dict [("uid", .str (uuidStr 1))]) : Except PyErr Value)
      = Except.ok (Value.dict [("uid", .str (uuidStr 2))]) := hcon
  simp [uuidStr] at h2
  exact absurd h2 (by decide)

/-- C5 (amended): under renewal the samples are reassigned before any field is
resolved (the prior process state is irrelevant to the result); two renewed
calls agree on every serializer none of whose fields resolves through a
sample-derived table entry; and a datetime-typed field differs whenever the
two calls' fresh timestamps differ. -/
theorem C5_amended (S T : Ser) (n : String) (chs : List String) (sub : Bool)
    (st1 st2 fr fr1 fr2 : Samples) (v1 v2 : Value)
    (hfree : sampleFree S = true)
    (hT : List.lookup n T.fields = some (.plain .datetime chs sub))
    (ht : fr1.t ≠ fr2.t)
    (h1 : dumpsVal T [] true [] st1 fr1 = .ok v1)
    (h2 : dumpsVal T [] true [] st2 fr2 = .ok v2) :
    serializer_dumps S [] true [] st1 fr = serializer_dumps S [] true [] st2 fr
    ∧ dumpsVal S [] true [] st1 fr1 = dumpsVal S [] true [] st2 fr2
    ∧ vlookup n v1 ≠ vlookup n v2 := by
  refine ⟨rfl, ?_, ?_⟩
  · rw [dumpsVal_eq_true, dumpsVal_eq_true]
    have hkeys : ∀ a ∈ serKeys S, sampleKey a = false := by
      intro a ha
      have := List.all_eq_true.mp hfree a ha
      simpa using this
    have hagree := walkSer_agree (tmRaw [] fr1) (tmRaw [] fr2) (revGet fr1) (revGet fr2) S []
      (fun a ha => by rw [tmRaw_nil, tmRaw_nil]; exact tmDefault_indep fr1 fr2 a (hkeys a ha))
      (fun a ha => by
        rw [tmRaw_nil]
        exact revGet_indep fr1 fr2 _ (tmDefault_notSample fr1 a (hkeys a ha)))
    rw [hagree]
  · rw [dumpsVal_eq_true] at h1 h2
    cases hw1 : walkSer (tmRaw [] fr1) (revGet fr1) T [] with
    | error e => rw [hw1] at h1; exact absurd h1 (by simp)
    | ok p1 =>
      obtain ⟨da, lga⟩ := p1
      rw [hw1] at h1
      cases hw2 : walkSer (tmRaw [] fr2) (revGet fr2) T [] with
      | error e => rw [hw2] at h2; exact absurd h2 (by simp)
      | ok p2 =>
        obtain ⟨db, lgb⟩ := p2
        rw [hw2] at h2
        simp only [Except.ok.injEq] at h1 h2
        subst h1
        subst h2
        obtain ⟨nm, fields⟩ := T
        obtain ⟨va, la, hfa, hda⟩ := walkFields_lookup (tmRaw [] fr1) (revGet fr1)
          fields [] da lga n (.plain .datetime chs sub) hw1 (by simp) hT
        obtain ⟨vb, lb, hfb, hdb⟩ := walkFields_lookup (tmRaw [] fr2) (revGet fr2)
          fields [] db lgb n (.plain .datetime chs sub) hw2 (by simp) hT
        have hca : fieldValue (tmRaw [] fr1) (revGet fr1) n (.plain .datetime chs sub) []
            = .ok (.str (isoDateTime fr1.t), []) := by cases sub <;> rfl
        have hcb : fieldValue (tmRaw [] fr2) (revGet fr2) n (.plain .datetime chs sub) []
            = .ok (.str (isoDateTime fr2.t), []) := by cases sub <;> rfl
        rw [hca] at hfa
        rw [hcb] at hfb
        have hva : va = .str (isoDateTime fr1.t) := by
          simp only [Except.ok.injEq, Prod.mk.injEq] at hfa
          exact hfa.1.symm
        have hvb : vb = .str (isoDateTime fr2.t) := by
          simp only [Except.ok.injEq, Prod.mk.injEq] at hfb
          exact hfb.1.symm
        rw [vlookup_jsonRound_dict, vlookup_jsonRound_dict, hda, hdb, hva, hvb]
        intro hcon
        simp only [Option.map] at hcon
        simp only [Option.some.injEq] at hcon
        have : isoDateTime fr1.t = isoDateTime fr2.t := by
          have h3 : jsonRound (.str (isoDateTime fr1.t)) = jsonRound (.str (isoDateTime fr2.t)) := hcon
          simpa [jsonRound] using h3
        exact ht (isoDateTime_inj fr1.t fr2.t this)

/-- C5 witness: a sample-free serializer is renewal-invariant, and the
`birthday` datetime field differs across renewed calls at different
timestamps. -/
theorem C5_witness :
    serializer_dumps nameSer [] true [] st0 ⟨9, 9⟩
      = serializer_dumps nameSer [] true [] ⟨5, 5⟩ ⟨9, 9⟩
    ∧ dumpsVal nameSer [] true [] st0 ⟨1, 10⟩ = dumpsVal nameSer [] true [] ⟨5, 5⟩ ⟨2, 20⟩
    ∧ vlookup "birthday" (.dict [("birthday", .str (isoDateTime 10)), ("name", .str "string")])
      ≠ vlookup "birthday" (.dict [("birthday", .str (isoDateTime 20)), ("name", .str "string")]) :=
  C5_amended nameSer birthdaySer "birthday" [] false st0 ⟨5, 5⟩ ⟨9, 9⟩ ⟨1, 10⟩ ⟨2, 20⟩
    (.dict [("birthday", .str (isoDateTime 10)), ("name", .str "string")])
    (.dict [("birthday", .str (isoDateTime 20)), ("name", .str "string")])
    rfl rfl (by decide) rfl rfl

end Drf
